import Mathlib

/-!  Verification development for the fixed-length binary-record storage
engine of a car-rental management program (`PROJECT/CarManager.py`).

Embedding conventions:

* a binary file is a `List Nat` of byte values (each `< 256` on every path
  the program produces);
* a Python `str` is its list of Unicode code points (`PyStr`);
* a Python dictionary is an association list from `String` to `PyVal`;
* `struct` packing and unpacking is modelled byte by byte: `<` layout with
  no padding, `?` one byte, `i` four bytes two's complement little-endian,
  `Ns` a fixed-width byte field, `d` eight bytes carrying the 64-bit
  IEEE-754 bit pattern of the float (the pattern is stored and reloaded
  verbatim, so it is the faithful wire-level view of a `d` field);
* the `while` loops that scan a file in record-size strides become
  fuel-indexed structural recursion; the fuel `file.length + 1` always
  suffices because the stride is positive;
* Python exceptions become `Except PyErr`.
-/

deriving instance DecidableEq for Except

namespace CarStore

/-! ## Bytes and file primitives -/

/-- One byte of a file.  The default `0` is only ever exposed at positions the
program never reads. -/
def byteAt (f : List Nat) (i : Nat) : Nat := f.getD i 0

/-- `file.read(n)` after seeking to absolute offset `off`: at most `n` bytes,
fewer at end-of-file. -/
def readAt (f : List Nat) (off n : Nat) : List Nat := (f.drop off).take n

/-- `file.write(data)` after seeking to absolute offset `off`.  Every write the
program performs happens at an offset `≤` end-of-file, so the zero-gap padding
Python would create for seeks past end-of-file is not needed. -/
def writeAt (f : List Nat) (off : Nat) (data : List Nat) : List Nat :=
  f.take off ++ data ++ f.drop (off + data.length)

/-! ## Python exceptions -/

/-- The exceptions the modelled code can raise.  `validationError` and
`referenceError` are the specification's taxonomy names; they exist here so
that statements about them can be made, the source itself never constructs a
`ValidationError`, and signals a failed rental reference check by printing an
error message and abandoning the operation (modelled as `referenceError`). -/
inductive PyErr where
  | keyError (k : String)
  | structError
  | typeError
  | unicodeEncodeError
  | validationError
  | referenceError
deriving DecidableEq, Repr

/-! ## Little-endian fixed-width integers -/

/-- Exactly `w` little-endian bytes of `n` (higher bytes discarded, as
`struct` does after its own range check). -/
def toLE : Nat → Nat → List Nat
  | 0, _ => []
  | w+1, n => n % 256 :: toLE w (n / 256)

/-- Value of a little-endian byte list. -/
def fromLE : List Nat → Nat
  | [] => 0
  | b :: t => b + 256 * fromLE t

/-- `struct.pack '<?'`. -/
def packBool (b : Bool) : List Nat := [if b then 1 else 0]

/-- `struct.unpack '<?'`: any non-zero byte reads back as `True`. -/
def unpackBool (bs : List Nat) : Bool := byteAt bs 0 != 0

/-- `struct.pack '<i'`: signed 32-bit; out-of-range ints raise
`struct.error`. -/
def packI32 (x : Int) : Except PyErr (List Nat) :=
  if -2^31 ≤ x ∧ x < 2^31 then .ok (toLE 4 (x % 2^32).toNat) else .error .structError

/-- `struct.unpack '<i'` on a 4-byte field. -/
def unpackI32 (bs : List Nat) : Int :=
  let n := fromLE bs
  if n < 2^31 then (n : Int) else (n : Int) - 2^32

/-- `struct.pack '<d'`: the eight bytes of the IEEE-754 bit pattern. -/
def packF64 (bits : Nat) : List Nat := toLE 8 bits

/-- `struct.unpack '<d'` on an 8-byte field, as a bit pattern. -/
def unpackF64 (bs : List Nat) : Nat := fromLE bs

/-- `bytes.ljust(w, b'\x00')`: pad on the right, never truncate. -/
def ljust (bs : List Nat) (w : Nat) : List Nat := bs ++ List.replicate (w - bs.length) 0

/-- A `struct` `Ns` field: truncate or zero-pad the argument to exactly `w`
bytes. -/
def packS (w : Nat) (bs : List Nat) : List Nat := bs.take w ++ List.replicate (w - bs.length) 0

/-! ## UTF-8: `str.encode` and `bytes.decode(..., errors='ignore')` -/

/-- A Python `str`, as its sequence of Unicode code points. -/
abbrev PyStr := List Nat

/-- Code points `str.encode('utf-8')` accepts: scalar values, i.e. below
`0x110000` and not surrogates. -/
def validScalar (c : Nat) : Bool := c < 0x110000 && !(0xD800 ≤ c && c < 0xE000)

/-- UTF-8 bytes of one scalar value (meaningless outside the valid range,
where the encoder raises instead). -/
def utf8EncodeChar (c : Nat) : List Nat :=
  if c < 0x80 then [c]
  else if c < 0x800 then [0xC0 + c / 64, 0x80 + c % 64]
  else if c < 0x10000 then [0xE0 + c / 4096, 0x80 + c / 64 % 64, 0x80 + c % 64]
  else [0xF0 + c / 262144, 0x80 + c / 4096 % 64, 0x80 + c / 64 % 64, 0x80 + c % 64]

/-- `str.encode('utf-8')`: raises `UnicodeEncodeError` on surrogates or
out-of-range code points. -/
def pyEncodeUtf8 (s : PyStr) : Except PyErr (List Nat) :=
  if s.all validScalar then .ok ((s.map utf8EncodeChar).flatten) else .error .unicodeEncodeError

/-- Strict UTF-8: parse one scalar at the head of the byte list, returning the
code point and the number of bytes consumed; `none` on any ill-formed prefix
(invalid lead byte, bad continuation, overlong form, surrogate, > U+10FFFF). -/
def utf8Next : List Nat → Option (Nat × Nat)
  | [] => none
  | b0 :: t =>
    if b0 < 0x80 then some (b0, 1) else
    match t with
    | [] => none
    | b1 :: t1 =>
      if 0xC2 ≤ b0 ∧ b0 ≤ 0xDF then
        if 0x80 ≤ b1 ∧ b1 ≤ 0xBF then some ((b0 - 0xC0) * 64 + (b1 - 0x80), 2) else none
      else
      match t1 with
      | [] => none
      | b2 :: t2 =>
        if 0xE0 ≤ b0 ∧ b0 ≤ 0xEF then
          if (0x80 ≤ b1 ∧ b1 ≤ 0xBF) ∧ (b0 ≠ 0xE0 ∨ 0xA0 ≤ b1) ∧ (b0 ≠ 0xED ∨ b1 ≤ 0x9F)
              ∧ (0x80 ≤ b2 ∧ b2 ≤ 0xBF) then
            some ((b0 - 0xE0) * 4096 + (b1 - 0x80) * 64 + (b2 - 0x80), 3)
          else none
        else
        match t2 with
        | [] => none
        | b3 :: _ =>
          if 0xF0 ≤ b0 ∧ b0 ≤ 0xF4 then
            if (0x80 ≤ b1 ∧ b1 ≤ 0xBF) ∧ (b0 ≠ 0xF0 ∨ 0x90 ≤ b1) ∧ (b0 ≠ 0xF4 ∨ b1 ≤ 0x8F)
                ∧ (0x80 ≤ b2 ∧ b2 ≤ 0xBF) ∧ (0x80 ≤ b3 ∧ b3 ≤ 0xBF) then
              some ((b0 - 0xF0) * 262144 + (b1 - 0x80) * 4096 + (b2 - 0x80) * 64 + (b3 - 0x80), 4)
            else none
          else none

/-- `bytes.decode('utf-8', errors='ignore')`, fuel-indexed: well-formed
sequences are decoded, ill-formed bytes are skipped.  Each step consumes at
least one byte, so fuel `= length` suffices. -/
def utf8DecodeIgnoreAux : Nat → List Nat → PyStr
  | 0, _ => []
  | _, [] => []
  | fuel+1, b :: rest =>
    match utf8Next (b :: rest) with
    | some (c, k) => c :: utf8DecodeIgnoreAux fuel (rest.drop (k - 1))
    | none => utf8DecodeIgnoreAux fuel rest

/-- `bytes.decode('utf-8', errors='ignore')`. -/
def utf8DecodeIgnore (bs : List Nat) : PyStr := utf8DecodeIgnoreAux bs.length bs

/-- Whether a byte list is well-formed UTF-8 in its entirety (strict decoding
would succeed without errors). -/
def utf8DecodableAux : Nat → List Nat → Bool
  | 0, l => l.isEmpty
  | _, [] => true
  | fuel+1, b :: rest =>
    match utf8Next (b :: rest) with
    | some (_, k) => utf8DecodableAux fuel (rest.drop (k - 1))
    | none => false

/-- Whether `bytes.decode('utf-8')` (strict) would succeed. -/
def utf8Decodable (bs : List Nat) : Bool := utf8DecodableAux bs.length bs

/-- The code points Python's `str.strip()` removes (`str.isspace`). -/
def pyIsSpaceCp (c : Nat) : Bool :=
  c ∈ [9, 10, 11, 12, 13, 28, 29, 30, 31, 32, 0x85, 0xA0, 0x1680,
    0x2000, 0x2001, 0x2002, 0x2003, 0x2004, 0x2005, 0x2006, 0x2007, 0x2008,
    0x2009, 0x200A, 0x2028, 0x2029, 0x202F, 0x205F, 0x3000]

/-- `str.strip()`. -/
def pyStrip (s : PyStr) : PyStr :=
  ((s.dropWhile pyIsSpaceCp).reverse.dropWhile pyIsSpaceCp).reverse

/-- One decoded text field: `raw.split(b'\x00', 1)[0].decode('utf-8',
errors='ignore').strip()`. -/
def pyDecodeField (bs : List Nat) : PyStr :=
  pyStrip (utf8DecodeIgnore (bs.takeWhile (· != 0)))

/-! ## Python values and dictionaries -/

/-- A Python value as the program uses them: bools, ints, strs, and floats
(carried as IEEE-754 bit patterns). -/
inductive PyVal where
  | pybool (b : Bool)
  | pyint (n : Int)
  | pystr (s : PyStr)
  | pyfloat (bits : Nat)
deriving DecidableEq, Repr

/-- A Python dictionary (unique keys on every path the program builds). -/
abbrev PyDict := List (String × PyVal)

/-- `d[k]` as an option. -/
def dget (d : PyDict) (k : String) : Option PyVal :=
  match d with
  | [] => none
  | (k', v) :: t => if k' = k then some v else dget t k

/-- `d[k] = v`. -/
def dset (d : PyDict) (k : String) (v : PyVal) : PyDict :=
  match d with
  | [] => [(k, v)]
  | (k', v') :: t => if k' = k then (k', v) :: t else (k', v') :: dset t k v

/-- `d.update(nd)`. -/
def dmerge (d nd : PyDict) : PyDict := nd.foldl (fun a p => dset a p.1 p.2) d

/-- `d[k]`, raising `KeyError` when the key is absent. -/
def dgetE (d : PyDict) (k : String) : Except PyErr PyVal :=
  match dget d k with
  | some v => .ok v
  | none => .error (.keyError k)

/-- `d[k]` where the program then calls a `str` method on the value. -/
def dgetStr (d : PyDict) (k : String) : Except PyErr PyStr := do
  match ← dgetE d k with
  | .pystr s => .ok s
  | _ => .error .typeError

/-- `d[k]` where `struct` packs it with `i` (an int is required). -/
def dgetInt (d : PyDict) (k : String) : Except PyErr Int := do
  match ← dgetE d k with
  | .pyint n => .ok n
  | .pybool b => .ok (if b then 1 else 0)
  | _ => .error .typeError

/-- `d[k]` where `struct` packs it with `d`.  Only floats reach these fields
in the modelled flows (rates and prices are produced by `float` input parsing
or by unpacking), so other types are mapped to a `typeError`. -/
def dgetFloat (d : PyDict) (k : String) : Except PyErr Nat := do
  match ← dgetE d k with
  | .pyfloat bits => .ok bits
  | _ => .error .typeError

/-- Python truthiness for the values above.  A float is falsy exactly on the
two zero bit patterns (`0.0` and `-0.0`). -/
def pyTruthy : PyVal → Bool
  | .pybool b => b
  | .pyint n => n != 0
  | .pystr s => !s.isEmpty
  | .pyfloat bits => bits != 0 && bits != 2^63

/-- `data.get('IsActive', True)` followed by packing with `?`. -/
def dgetActiveD (d : PyDict) : Bool :=
  match dget d "IsActive" with
  | some v => pyTruthy v
  | none => true

/-! ## Entity codecs -/

/-- `CarManager._pack_record` (format `'< ?i30s10sd'`, 53 bytes).  Evaluation
order matches the source: `Model` is encoded first, then `LicensePlate`, then
the `struct.pack` arguments. -/
def carPack (data : PyDict) : Except PyErr (List Nat) := do
  let m ← dgetStr data "Model"
  let mb ← pyEncodeUtf8 m
  let model_bytes := ljust mb 30
  let p ← dgetStr data "LicensePlate"
  let pb ← pyEncodeUtf8 p
  let license_bytes := ljust pb 10
  let act := dgetActiveD data
  let i ← dgetInt data "ID"
  let r ← dgetFloat data "DailyRate"
  let ib ← packI32 i
  .ok (packBool act ++ ib ++ packS 30 model_bytes ++ packS 10 license_bytes ++ packF64 r)

/-- `CarManager._unpack_record`: `struct.unpack` demands exactly 53 bytes. -/
def carUnpack (bs : List Nat) : Except PyErr PyDict :=
  if bs.length = 53 then
    .ok [("IsActive", .pybool (unpackBool (bs.take 1))),
         ("ID", .pyint (unpackI32 ((bs.drop 1).take 4))),
         ("Model", .pystr (pyDecodeField ((bs.drop 5).take 30))),
         ("LicensePlate", .pystr (pyDecodeField ((bs.drop 35).take 10))),
         ("DailyRate", .pyfloat (unpackF64 ((bs.drop 45).take 8)))]
  else .error .structError

/-- `CustomerManager._pack_record` (format `'< ?i50s15s'`, 70 bytes). -/
def customerPack (data : PyDict) : Except PyErr (List Nat) := do
  let n ← dgetStr data "Name"
  let nb ← pyEncodeUtf8 n
  let name_bytes := ljust nb 50
  let p ← dgetStr data "Phone"
  let pb ← pyEncodeUtf8 p
  let phone_bytes := ljust pb 15
  let act := dgetActiveD data
  let i ← dgetInt data "ID"
  let ib ← packI32 i
  .ok (packBool act ++ ib ++ packS 50 name_bytes ++ packS 15 phone_bytes)

/-- `CustomerManager._unpack_record`. -/
def customerUnpack (bs : List Nat) : Except PyErr PyDict :=
  if bs.length = 70 then
    .ok [("IsActive", .pybool (unpackBool (bs.take 1))),
         ("ID", .pyint (unpackI32 ((bs.drop 1).take 4))),
         ("Name", .pystr (pyDecodeField ((bs.drop 5).take 50))),
         ("Phone", .pystr (pyDecodeField ((bs.drop 55).take 15)))]
  else .error .structError

/-- `RentalManager._pack_record` (format `'< ?iiiiid'`, 29 bytes).  The
`int(...)` coercions are identities on the int values that reach them. -/
def rentalPack (data : PyDict) : Except PyErr (List Nat) := do
  let act := dgetActiveD data
  let i ← dgetInt data "ID"
  let ci ← dgetInt data "CustomerID"
  let cari ← dgetInt data "CarID"
  let sd ← dgetInt data "StartDate"
  let ed ← match dget data "EndDate" with
           | none => Except.ok (0 : Int)
           | some (.pyint n) => Except.ok n
           | some (.pybool b) => Except.ok (if b then (1 : Int) else 0)
           | some _ => Except.error PyErr.typeError
  let tp ← dgetFloat data "TotalPrice"
  let ib ← packI32 i
  let cib ← packI32 ci
  let carib ← packI32 cari
  let sdb ← packI32 sd
  let edb ← packI32 ed
  .ok (packBool act ++ ib ++ cib ++ carib ++ sdb ++ edb ++ packF64 tp)

/-- `RentalManager._unpack_record`. -/
def rentalUnpack (bs : List Nat) : Except PyErr PyDict :=
  if bs.length = 29 then
    .ok [("IsActive", .pybool (unpackBool (bs.take 1))),
         ("ID", .pyint (unpackI32 ((bs.drop 1).take 4))),
         ("CustomerID", .pyint (unpackI32 ((bs.drop 5).take 4))),
         ("CarID", .pyint (unpackI32 ((bs.drop 9).take 4))),
         ("StartDate", .pyint (unpackI32 ((bs.drop 13).take 4))),
         ("EndDate", .pyint (unpackI32 ((bs.drop 17).take 4))),
         ("TotalPrice", .pyfloat (unpackF64 ((bs.drop 21).take 8)))]
  else .error .structError

/-! ## The generic record store (`FileManager`) -/

/-- A `FileManager` subclass: the computed record size together with the
`_pack_record` / `_unpack_record` overrides.  `pos` records that
`struct.calcsize` of a non-empty format is positive. -/
structure Manager where
  rs : Nat
  pos : 0 < rs
  pack : PyDict → Except PyErr (List Nat)
  unpack : List Nat → Except PyErr PyDict

/-- `CarManager` (`struct.calcsize('< ?i30s10sd') = 53`). -/
def carManager : Manager := ⟨53, by omega, carPack, carUnpack⟩

/-- `CustomerManager` (`struct.calcsize('< ?i50s15s') = 70`). -/
def customerManager : Manager := ⟨70, by omega, customerPack, customerUnpack⟩

/-- `RentalManager` (`struct.calcsize('< ?iiiiid') = 29`). -/
def rentalManager : Manager := ⟨29, by omega, rentalPack, rentalUnpack⟩

/-- The free-slot scan of `add_record`: from offset `off`, read the one flag
byte of each complete slot and return the offset of the first slot whose flag
is zero; `none` once a full slot can no longer be read (then the caller
appends).  One fuel unit per slot; `file.length + 1` always suffices. -/
def addFreeAux (m : Manager) (f : List Nat) : Nat → Nat → Option Nat
  | 0, _ => none
  | fuel+1, off =>
    if off + m.rs ≤ f.length then
      if byteAt f off ≠ 0 then addFreeAux m f fuel (off + m.rs) else some off
    else none

/-- The free-slot scan of `add_record`, from offset 0. -/
def addFree (m : Manager) (f : List Nat) : Option Nat := addFreeAux m f (f.length + 1) 0

/-- `FileManager.add_record`: force `IsActive = True`, pack, reuse the first
free slot or append at end-of-file; returns the new file and the offset
written.  A packing exception propagates before any write. -/
def add_record (m : Manager) (f : List Nat) (data : PyDict) :
    Except PyErr (List Nat × Nat) := do
  let data := dset data "IsActive" (.pybool true)
  let packed ← m.pack data
  match addFree m f with
  | some off => .ok (writeAt f off packed, off)
  | none => .ok (f ++ packed, f.length)

/-- `record_data['IsActive']` truthiness inside the scans (the key is present
in every record `_unpack_record` produces). -/
def isActiveD (d : PyDict) : Bool :=
  match dget d "IsActive" with
  | some v => pyTruthy v
  | none => false

/-- `record_data['ID'] == record_id`.  Python `==` between the unpacked value
and an int: int and bool compare numerically, a str is never equal to an int.
Floats never appear in `ID` fields of unpacked records. -/
def idEq (d : PyDict) (rid : Int) : Bool :=
  match dget d "ID" with
  | some (.pyint x) => x == rid
  | some (.pybool b) => (if b then (1 : Int) else 0) == rid
  | _ => false

/-- The match condition of `get_record_by_id`. -/
def isHit (d : PyDict) (rid : Int) : Bool := isActiveD d && idEq d rid

/-- The scan of `get_record_by_id` from offset `off`: decode every complete
slot, skip decode failures and non-matches, return the first active record
with the requested id together with its byte offset. -/
def getByIdAux (m : Manager) (f : List Nat) (rid : Int) :
    Nat → Nat → Option (PyDict × Nat)
  | 0, _ => none
  | fuel+1, off =>
    if off + m.rs ≤ f.length then
      match m.unpack (readAt f off m.rs) with
      | .ok d => if isHit d rid then some (d, off) else getByIdAux m f rid fuel (off + m.rs)
      | .error _ => getByIdAux m f rid fuel (off + m.rs)
    else none

/-- `FileManager.get_record_by_id`. -/
def get_record_by_id (m : Manager) (f : List Nat) (rid : Int) : Option (PyDict × Nat) :=
  getByIdAux m f rid (f.length + 1) 0

/-- Whether the slot at byte offset `off` decodes to an active record with id
`rid` (an executable view of one step of the scan). -/
def slotHit (m : Manager) (f : List Nat) (rid : Int) (off : Nat) : Bool :=
  decide (off + m.rs ≤ f.length) &&
    match m.unpack (readAt f off m.rs) with
    | .ok d => isHit d rid
    | .error _ => false

/-- The dictionary `update_record` re-encodes (source lines 122–131): copy the
old record, default a missing `EndDate` to `0`, merge the new fields, force
`ID` and `IsActive` — the merge-and-force block appears twice in the source
and is modelled twice.  `old_data['IsActive']` is read once here; it can never
raise because `_unpack_record` always supplies the key. -/
def updMerge (old : PyDict) (rid : Int) (nd : PyDict) : Except PyErr PyDict := do
  let av ← dgetE old "IsActive"
  let u := if (dget old "EndDate").isSome then old else dset old "EndDate" (.pyint 0)
  let u := dset (dmerge u nd) "ID" (.pyint rid)
  let u := dset u "IsActive" av
  let u := dset (dmerge u nd) "ID" (.pyint rid)
  .ok (dset u "IsActive" av)

/-- `FileManager.update_record`: locate by id, merge, re-encode, overwrite the
same offset in place; `False` (with the file unchanged) when the id is absent
or inactive.  A packing exception propagates before any write. -/
def update_record (m : Manager) (f : List Nat) (rid : Int) (nd : PyDict) :
    Except PyErr (Bool × List Nat) :=
  match get_record_by_id m f rid with
  | none => .ok (false, f)
  | some (old, off) => do
    let u ← updMerge old rid nd
    let packed ← m.pack u
    .ok (true, writeAt f off packed)

/-- `FileManager.delete_record`: locate by id and write the single byte
`struct.pack('< ?', False) = b'\x00'` at the record's offset. -/
def delete_record (m : Manager) (f : List Nat) (rid : Int) : Bool × List Nat :=
  match get_record_by_id m f rid with
  | none => (false, f)
  | some (_, off) => (true, writeAt f off (packBool false))

/-- The scan of `get_all_records` from offset `off`. -/
def getAllAux (m : Manager) (f : List Nat) : Nat → Nat → List PyDict
  | 0, _ => []
  | fuel+1, off =>
    if off + m.rs ≤ f.length then
      match m.unpack (readAt f off m.rs) with
      | .ok d =>
        if isActiveD d then d :: getAllAux m f fuel (off + m.rs)
        else getAllAux m f fuel (off + m.rs)
      | .error _ => getAllAux m f fuel (off + m.rs)
    else []

/-- `FileManager.get_all_records`: every active record in ascending offset
order. -/
def get_all_records (m : Manager) (f : List Nat) : List PyDict :=
  getAllAux m f (f.length + 1) 0

/-! ## Lemmas about the file primitives -/

theorem length_writeAt (f : List Nat) (off : Nat) (data : List Nat) (h : off ≤ f.length) :
    (writeAt f off data).length = max f.length (off + data.length) := by
  simp [writeAt, List.length_take, List.length_drop]
  omega

theorem writeAt_at_length (f data : List Nat) : writeAt f f.length data = f ++ data := by
  simp [writeAt, List.take_length, List.drop_eq_nil_of_le (by omega : f.length ≤ f.length + data.length)]

theorem getElem?_writeAt (f : List Nat) (off : Nat) (data : List Nat) (i : Nat)
    (h : off ≤ f.length) :
    (writeAt f off data)[i]? =
      if off ≤ i ∧ i < off + data.length then data[i - off]? else f[i]? := by
  have htk : (f.take off).length = off := by simp [List.length_take]; omega
  rw [writeAt, List.append_assoc]
  rcases Nat.lt_or_ge i off with hi | hi
  · rw [if_neg (by omega)]
    rw [List.getElem?_append_left (by omega), List.getElem?_take, if_pos hi]
  · rcases Nat.lt_or_ge i (off + data.length) with hi2 | hi2
    · rw [if_pos ⟨hi, hi2⟩]
      rw [List.getElem?_append_right (by omega), htk,
        List.getElem?_append_left (by omega)]
    · rw [if_neg (by omega)]
      rw [List.getElem?_append_right (by omega), htk,
        List.getElem?_append_right (by omega), List.getElem?_drop]
      congr 1
      omega

theorem byteAt_writeAt (f : List Nat) (off : Nat) (data : List Nat) (i : Nat)
    (h : off ≤ f.length) :
    byteAt (writeAt f off data) i =
      if off ≤ i ∧ i < off + data.length then byteAt data (i - off) else byteAt f i := by
  simp only [byteAt, List.getD_eq_getElem?_getD, getElem?_writeAt f off data i h]
  split <;> rfl

theorem length_readAt (f : List Nat) (off n : Nat) :
    (readAt f off n).length = min n (f.length - off) := by
  simp [readAt, List.length_take, List.length_drop]

theorem getElem?_readAt (f : List Nat) (off n i : Nat) :
    (readAt f off n)[i]? = if i < n then f[off + i]? else none := by
  rw [readAt, List.getElem?_take]
  split
  · rw [List.getElem?_drop]
  · rfl

theorem readAt_writeAt_left (f : List Nat) (off : Nat) (data : List Nat) (o n : Nat)
    (h : o + n ≤ off) (hoff : off ≤ f.length) :
    readAt (writeAt f off data) o n = readAt f o n := by
  apply List.ext_getElem?
  intro i
  rw [getElem?_readAt, getElem?_readAt]
  split
  · rw [getElem?_writeAt _ _ _ _ hoff, if_neg (by omega)]
  · rfl

theorem readAt_writeAt_right (f : List Nat) (off : Nat) (data : List Nat) (o n : Nat)
    (h : off + data.length ≤ o) (hoff : off ≤ f.length) :
    readAt (writeAt f off data) o n = readAt f o n := by
  apply List.ext_getElem?
  intro i
  rw [getElem?_readAt, getElem?_readAt]
  split
  · rw [getElem?_writeAt _ _ _ _ hoff, if_neg (by omega)]
  · rfl

theorem readAt_writeAt_self (f : List Nat) (off : Nat) (data : List Nat)
    (hoff : off ≤ f.length) :
    readAt (writeAt f off data) off data.length = data := by
  apply List.ext_getElem?
  intro i
  rw [getElem?_readAt]
  split
  · rw [getElem?_writeAt _ _ _ _ hoff, if_pos (by omega)]
    congr 1
    omega
  · exact (List.getElem?_eq_none (by omega)).symm

theorem readAt_append_left (f g : List Nat) (off n : Nat) (h : off + n ≤ f.length) :
    readAt (f ++ g) off n = readAt f off n := by
  apply List.ext_getElem?
  intro i
  rw [getElem?_readAt, getElem?_readAt]
  split
  · rw [List.getElem?_append_left (by omega)]
  · rfl

theorem readAt_append_self (f g : List Nat) : readAt (f ++ g) f.length g.length = g := by
  rw [readAt, List.drop_left' rfl, List.take_length]

/-! ## Lemmas about the fixed-width integer codecs -/

theorem length_toLE (w n : Nat) : (toLE w n).length = w := by
  induction w generalizing n with
  | zero => rfl
  | succ w ih => simp [toLE, ih]

theorem fromLE_toLE (w n : Nat) (h : n < 256 ^ w) : fromLE (toLE w n) = n := by
  induction w generalizing n with
  | zero => simp [toLE, fromLE]; omega
  | succ w ih =>
    have hd : n / 256 < 256 ^ w := by
      have : 256 ^ (w + 1) = 256 ^ w * 256 := by ring
      omega
    simp [toLE, fromLE, ih _ hd]
    omega

theorem length_packS (w : Nat) (bs : List Nat) : (packS w bs).length = w := by
  simp [packS, List.length_take, List.length_replicate]
  omega

theorem packS_of_le (w : Nat) (bs : List Nat) (h : bs.length ≤ w) :
    packS w bs = bs ++ List.replicate (w - bs.length) 0 := by
  simp [packS, List.take_of_length_le h]

theorem length_ljust (bs : List Nat) (w : Nat) : (ljust bs w).length = max bs.length w := by
  simp [ljust, List.length_replicate]
  omega

theorem unpackI32_packI32 (x : Int) (h1 : -2^31 ≤ x) (h2 : x < 2^31) :
    ∃ bs, packI32 x = .ok bs ∧ bs.length = 4 ∧ unpackI32 bs = x := by
  refine ⟨_, by rw [packI32, if_pos ⟨h1, h2⟩], length_toLE _ _, ?_⟩
  have hlt : (x % 2^32).toNat < 256 ^ 4 := by
    have : (256 : Nat) ^ 4 = 2 ^ 32 := by norm_num
    omega
  rw [unpackI32, fromLE_toLE _ _ hlt]
  split <;> omega

/-! ## Lemmas about dictionaries -/

theorem dget_dset_self (d : PyDict) (k : String) (v : PyVal) : dget (dset d k v) k = some v := by
  induction d with
  | nil => simp [dget, dset]
  | cons p t ih =>
    obtain ⟨k0, v0⟩ := p
    by_cases h : k0 = k
    · simp [dset, dget, h]
    · simp [dset, dget, h, ih]

theorem dget_dset_ne (d : PyDict) (k k' : String) (v : PyVal) (h : k ≠ k') :
    dget (dset d k v) k' = dget d k' := by
  have hne : ¬ k = k' := h
  induction d with
  | nil => simp [dget, dset, hne]
  | cons p t ih =>
    obtain ⟨k0, v0⟩ := p
    by_cases h1 : k0 = k
    · subst h1
      simp [dset, dget, hne]
    · have hne' : ¬ k' = k := fun he => h he.symm
      by_cases h2 : k0 = k'
      · simp [dset, dget, h1, h2, hne']
      · simp [dset, dget, h1, h2, ih]

theorem dget_eq_none_of_not_mem_keys (d : PyDict) (k : String)
    (h : ¬ k ∈ d.map Prod.fst) : dget d k = none := by
  induction d with
  | nil => rfl
  | cons p t ih =>
    obtain ⟨k0, v0⟩ := p
    simp only [List.map_cons, List.mem_cons] at h
    push_neg at h
    have h0 : ¬ k0 = k := fun he => h.1 he.symm
    simp [dget, h0, ih h.2]

theorem dget_dmerge_of_none (d nd : PyDict) (k : String) (h : dget nd k = none) :
    dget (dmerge d nd) k = dget d k := by
  induction nd generalizing d with
  | nil => rfl
  | cons p t ih =>
    obtain ⟨k0, v0⟩ := p
    rw [dget] at h
    by_cases h1 : k0 = k
    · simp [h1] at h
    · rw [if_neg h1] at h
      show dget (dmerge (dset d k0 v0) t) k = dget d k
      rw [ih _ h, dget_dset_ne _ _ _ _ h1]

theorem dget_dmerge_of_some (d nd : PyDict) (k : String) (v : PyVal)
    (hnd : (nd.map Prod.fst).Nodup) (h : dget nd k = some v) :
    dget (dmerge d nd) k = some v := by
  induction nd generalizing d with
  | nil => simp [dget] at h
  | cons p t ih =>
    obtain ⟨k0, v0⟩ := p
    simp only [List.map_cons, List.nodup_cons] at hnd
    rw [dget] at h
    by_cases h1 : k0 = k
    · rw [if_pos h1] at h
      injection h with hv
      subst hv
      subst h1
      show dget (dmerge (dset d k0 v0) t) k0 = some v0
      rw [dget_dmerge_of_none _ _ _ (dget_eq_none_of_not_mem_keys _ _ hnd.1),
        dget_dset_self d k0 v0]
    · rw [if_neg h1] at h
      exact ih _ hnd.2 h

/-! ## Soundness and completeness of the file scans -/

/-- Positions strictly between two distinct offsets that are both multiples of
the record size are at least a full record apart. -/
theorem aligned_add_le (rs a b : Nat) (ha : rs ∣ a) (hb : rs ∣ b)
    (h : a < b) : a + rs ≤ b := by
  have h1 : rs ∣ b - a := Nat.dvd_sub' hb ha
  have h2 : rs ≤ b - a := Nat.le_of_dvd (by omega) h1
  omega

theorem addFreeAux_some (m : Manager) (f : List Nat) :
    ∀ fuel off off', addFreeAux m f fuel off = some off' →
      off ≤ off' ∧ m.rs ∣ (off' - off) ∧ off' + m.rs ≤ f.length ∧ byteAt f off' = 0 ∧
      (∀ o, off ≤ o → m.rs ∣ (o - off) → o < off' → byteAt f o ≠ 0) := by
  intro fuel
  induction fuel with
  | zero => intro off off' h; simp [addFreeAux] at h
  | succ fuel ih =>
    intro off off' h
    rw [addFreeAux] at h
    split at h
    · rename_i hlen
      split at h
      · rename_i hbyte
        obtain ⟨h1, h2, h3, h4, h5⟩ := ih (off + m.rs) off' h
        refine ⟨by omega, ?_, h3, h4, ?_⟩
        · have he : off' - off = (off' - (off + m.rs)) + m.rs := by
            have := m.pos
            omega
          rw [he]
          exact Nat.dvd_add h2 dvd_rfl
        · intro o ho hdvd hlt
          rcases Nat.eq_or_lt_of_le ho with he | hgt
          · exact he ▸ hbyte
          · have hge : m.rs ≤ o - off := Nat.le_of_dvd (by omega) hdvd
            have hdvd2 : m.rs ∣ o - (off + m.rs) := by
              rw [← Nat.sub_sub]
              exact Nat.dvd_sub' hdvd dvd_rfl
            exact h5 o (by omega) hdvd2 hlt
      · rename_i hbyte
        cases h
        refine ⟨Nat.le_refl _, by simp, by omega, by omega, ?_⟩
        intro o ho hdvd hlt
        omega
    · cases h

theorem addFreeAux_none (m : Manager) (f : List Nat) :
    ∀ fuel off, f.length ≤ off + fuel * m.rs → addFreeAux m f fuel off = none →
      ∀ o, off ≤ o → m.rs ∣ (o - off) → o + m.rs ≤ f.length → byteAt f o ≠ 0 := by
  intro fuel
  induction fuel with
  | zero =>
    intro off hfuel h o ho hdvd hrange
    have := m.pos
    omega
  | succ fuel ih =>
    intro off hfuel h o ho hdvd hrange
    rw [Nat.succ_mul] at hfuel
    rw [addFreeAux] at h
    split at h
    · split at h
      · rename_i hbyte
        rcases Nat.eq_or_lt_of_le ho with he | hgt
        · exact he ▸ hbyte
        · have hge : m.rs ≤ o - off := Nat.le_of_dvd (by omega) hdvd
          have hdvd2 : m.rs ∣ o - (off + m.rs) := by
            rw [← Nat.sub_sub]
            exact Nat.dvd_sub' hdvd dvd_rfl
          exact ih (off + m.rs) (by omega) h o (by omega) hdvd2 hrange
      · exact absurd h (by simp)
    · rename_i hlen
      omega

theorem fuel_suffices (len rs : Nat) (h : 0 < rs) : len ≤ 0 + (len + 1) * rs := by
  have h1 : (len + 1) * 1 ≤ (len + 1) * rs := Nat.mul_le_mul_left _ h
  omega

theorem addFree_eq_some (m : Manager) (f : List Nat) (off : Nat)
    (hdvd : m.rs ∣ off) (hrange : off + m.rs ≤ f.length) (hflag : byteAt f off = 0)
    (hmin : ∀ o, m.rs ∣ o → o < off → byteAt f o ≠ 0) :
    addFree m f = some off := by
  cases h : addFree m f with
  | none =>
    exact absurd hflag
      (addFreeAux_none m f _ 0 (fuel_suffices f.length m.rs m.pos) h off (by omega)
        (by simpa using hdvd) hrange)
  | some off' =>
    obtain ⟨_, hdvd', hrange', hflag', hmin'⟩ := addFreeAux_some m f _ 0 off' h
    rcases lt_trichotomy off' off with hlt | heq | hgt
    · exact absurd hflag' (hmin off' (by simpa using hdvd') hlt)
    · rw [heq]
    · exact absurd hflag (hmin' off (by omega) (by simpa using hdvd) hgt)

theorem addFree_eq_none (m : Manager) (f : List Nat)
    (hall : ∀ o, m.rs ∣ o → o + m.rs ≤ f.length → byteAt f o ≠ 0) :
    addFree m f = none := by
  cases h : addFree m f with
  | none => rfl
  | some off' =>
    obtain ⟨_, hdvd', hrange', hflag', _⟩ := addFreeAux_some m f _ 0 off' h
    exact absurd hflag' (hall off' (by simpa using hdvd') hrange')

theorem getByIdAux_some (m : Manager) (f : List Nat) (rid : Int) :
    ∀ fuel off d K, getByIdAux m f rid fuel off = some (d, K) →
      off ≤ K ∧ m.rs ∣ (K - off) ∧ K + m.rs ≤ f.length ∧
      m.unpack (readAt f K m.rs) = .ok d ∧ isHit d rid = true ∧
      (∀ o, off ≤ o → m.rs ∣ (o - off) → o < K → slotHit m f rid o = false) := by
  intro fuel
  induction fuel with
  | zero => intro off d K h; simp [getByIdAux] at h
  | succ fuel ih =>
    intro off d K h
    rw [getByIdAux] at h
    split at h
    · rename_i hlen
      split at h
      · rename_i d' hunp
        split at h
        · rename_i hhit
          injection h with h'
          injection h' with h1 h2
          subst h1
          subst h2
          exact ⟨Nat.le_refl _, by simp, hlen, hunp, hhit,
            fun o ho hdvd hlt => by omega⟩
        · rename_i hhit
          obtain ⟨h1, h2, h3, h4, h5, h6⟩ := ih (off + m.rs) d K h
          refine ⟨by omega, ?_, h3, h4, h5, ?_⟩
          · have he : K - off = (K - (off + m.rs)) + m.rs := by
              have := m.pos
              omega
            rw [he]
            exact Nat.dvd_add h2 dvd_rfl
          · intro o ho hdvd hlt
            rcases Nat.eq_or_lt_of_le ho with he | hgt
            · subst he
              simp [slotHit, hunp, Bool.eq_false_iff.mpr, hhit]
            · have hge : m.rs ≤ o - off := Nat.le_of_dvd (by omega) hdvd
              have hdvd2 : m.rs ∣ o - (off + m.rs) := by
                rw [← Nat.sub_sub]
                exact Nat.dvd_sub' hdvd dvd_rfl
              exact h6 o (by omega) hdvd2 hlt
      · rename_i e hunp
        obtain ⟨h1, h2, h3, h4, h5, h6⟩ := ih (off + m.rs) d K h
        refine ⟨by omega, ?_, h3, h4, h5, ?_⟩
        · have he : K - off = (K - (off + m.rs)) + m.rs := by
            have := m.pos
            omega
          rw [he]
          exact Nat.dvd_add h2 dvd_rfl
        · intro o ho hdvd hlt
          rcases Nat.eq_or_lt_of_le ho with he | hgt
          · subst he
            simp [slotHit, hunp]
          · have hge : m.rs ≤ o - off := Nat.le_of_dvd (by omega) hdvd
            have hdvd2 : m.rs ∣ o - (off + m.rs) := by
              rw [← Nat.sub_sub]
              exact Nat.dvd_sub' hdvd dvd_rfl
            exact h6 o (by omega) hdvd2 hlt
    · cases h

theorem getByIdAux_none (m : Manager) (f : List Nat) (rid : Int) :
    ∀ fuel off, f.length ≤ off + fuel * m.rs → getByIdAux m f rid fuel off = none →
      ∀ o, off ≤ o → m.rs ∣ (o - off) → slotHit m f rid o = false := by
  intro fuel
  induction fuel with
  | zero =>
    intro off hfuel h o ho hdvd
    have := m.pos
    simp only [slotHit]
    rw [decide_eq_false (by omega)]
    simp
  | succ fuel ih =>
    intro off hfuel h o ho hdvd
    rw [Nat.succ_mul] at hfuel
    rw [getByIdAux] at h
    split at h
    · rename_i hlen
      have hstep : ∀ o', off + m.rs ≤ o' → m.rs ∣ (o' - off) → slotHit m f rid o' = false := by
        intro o' ho' hdvd'
        have hdvd2 : m.rs ∣ o' - (off + m.rs) := by
          rw [← Nat.sub_sub]
          exact Nat.dvd_sub' hdvd' dvd_rfl
        split at h
        · rename_i d' hunp
          split at h
          · cases h
          · exact ih (off + m.rs) (by omega) h o' ho' hdvd2
        · exact ih (off + m.rs) (by omega) h o' ho' hdvd2
      rcases Nat.eq_or_lt_of_le ho with he | hgt
      · subst he
        split at h
        · rename_i d' hunp
          split at h
          · cases h
          · rename_i hhit
            simp [slotHit, hunp, Bool.eq_false_iff.mpr, hhit]
        · rename_i e hunp
          simp [slotHit, hunp]
      · have hge : m.rs ≤ o - off := Nat.le_of_dvd (by omega) hdvd
        exact hstep o (by omega) hdvd
    · rename_i hlen
      simp only [slotHit]
      rw [decide_eq_false (by omega)]
      simp

theorem getById_some (m : Manager) (f : List Nat) (rid : Int) (d : PyDict) (K : Nat)
    (h : get_record_by_id m f rid = some (d, K)) :
    m.rs ∣ K ∧ K + m.rs ≤ f.length ∧ m.unpack (readAt f K m.rs) = .ok d ∧
    isHit d rid = true ∧ (∀ o, m.rs ∣ o → o < K → slotHit m f rid o = false) := by
  obtain ⟨h1, h2, h3, h4, h5, h6⟩ := getByIdAux_some m f rid _ 0 d K h
  exact ⟨by simpa using h2, h3, h4, h5, fun o ho hlt => h6 o (by omega) (by simpa using ho) hlt⟩

theorem getById_first (m : Manager) (f : List Nat) (rid : Int) (d : PyDict) (K : Nat)
    (hdvd : m.rs ∣ K) (hrange : K + m.rs ≤ f.length)
    (hunp : m.unpack (readAt f K m.rs) = .ok d) (hhit : isHit d rid = true)
    (hmin : ∀ o, m.rs ∣ o → o < K → slotHit m f rid o = false) :
    get_record_by_id m f rid = some (d, K) := by
  have hK : slotHit m f rid K = true := by simp [slotHit, hunp, hhit, hrange]
  cases h : get_record_by_id m f rid with
  | none =>
    have := getByIdAux_none m f rid _ 0 (fuel_suffices f.length m.rs m.pos) h K (by omega)
      (by simpa using hdvd)
    rw [hK] at this
    cases this
  | some p =>
    obtain ⟨d', K'⟩ := p
    obtain ⟨hd1, hd2, hd3, hd4, hd5⟩ := getById_some m f rid d' K' h
    rcases lt_trichotomy K' K with hlt | heq | hgt
    · have := hmin K' hd1 hlt
      have hK' : slotHit m f rid K' = true := by simp [slotHit, hd3, hd4, hd2]
      rw [hK'] at this
      cases this
    · subst heq
      rw [hd3] at hunp
      injection hunp with he
      rw [he]
    · have := hd5 K hdvd hgt
      rw [hK] at this
      cases this

theorem getById_eq_none (m : Manager) (f : List Nat) (rid : Int)
    (hall : ∀ o, m.rs ∣ o → slotHit m f rid o = false) :
    get_record_by_id m f rid = none := by
  cases h : get_record_by_id m f rid with
  | none => rfl
  | some p =>
    obtain ⟨d', K'⟩ := p
    obtain ⟨hd1, hd2, hd3, hd4, _⟩ := getById_some m f rid d' K' h
    have hK' : slotHit m f rid K' = true := by simp [slotHit, hd3, hd4, hd2]
    rw [hall K' hd1] at hK'
    cases hK'

theorem getAllAux_mem (m : Manager) (f : List Nat) (d : PyDict) :
    ∀ fuel off o, off ≤ o → m.rs ∣ (o - off) → o + m.rs ≤ f.length →
      f.length ≤ off + fuel * m.rs →
      m.unpack (readAt f o m.rs) = .ok d → isActiveD d = true →
      d ∈ getAllAux m f fuel off := by
  intro fuel
  induction fuel with
  | zero =>
    intro off o ho hdvd hrange hfuel hunp hact
    have := m.pos
    omega
  | succ fuel ih =>
    intro off o ho hdvd hrange hfuel hunp hact
    rw [Nat.succ_mul] at hfuel
    rw [getAllAux]
    rw [if_pos (by omega)]
    rcases Nat.eq_or_lt_of_le ho with he | hgt
    · subst he
      rw [hunp]
      simp [hact]
    · have hge : m.rs ≤ o - off := Nat.le_of_dvd (by omega) hdvd
      have hdvd2 : m.rs ∣ o - (off + m.rs) := by
        rw [← Nat.sub_sub]
        exact Nat.dvd_sub' hdvd dvd_rfl
      have hmem : d ∈ getAllAux m f fuel (off + m.rs) :=
        ih (off + m.rs) o (by omega) hdvd2 hrange (by omega) hunp hact
      split
      · split
        · exact List.mem_cons_of_mem _ hmem
        · exact hmem
      · exact hmem

theorem mem_get_all (m : Manager) (f : List Nat) (d : PyDict) (o : Nat)
    (hdvd : m.rs ∣ o) (hrange : o + m.rs ≤ f.length)
    (hunp : m.unpack (readAt f o m.rs) = .ok d) (hact : isActiveD d = true) :
    d ∈ get_all_records m f :=
  getAllAux_mem m f d _ 0 o (by omega) (by simpa using hdvd) hrange
    (fuel_suffices f.length m.rs m.pos) hunp hact

/-! ## Claim C1: first-fit space reuse in `add_record` -/

theorem add_record_eq (m : Manager) (g : List Nat) (d : PyDict) (packed : List Nat)
    (hpack : m.pack (dset d "IsActive" (.pybool true)) = .ok packed) :
    add_record m g d = match addFree m g with
      | some off => .ok (writeAt g off packed, off)
      | none => .ok (g ++ packed, g.length) := by
  rw [add_record, hpack]
  rfl

/-- C1.  On a store whose file is a concatenation of `k` record-size slots,
`add_record` (i) forces the record's `IsActive` flag to `True` before
encoding, (ii) overwrites the lowest-offset slot whose flag byte is zero and
returns that offset, (iii) appends the encoded record at end-of-file and
returns the end-of-file offset when no inactive slot exists, and (iv) in
particular, after tombstoning the slot at offset `K = j·RecordSize` of a
fully-active file (the one byte `delete_record` writes), the next add returns
exactly `K` again rather than an end-of-file offset. -/
theorem c1_add_first_fit (m : Manager) (file : List Nat) (k : Nat) (d : PyDict)
    (packed : List Nat)
    (hmult : file.length = k * m.rs)
    (hpack : m.pack (dset d "IsActive" (.pybool true)) = .ok packed) :
    dget (dset d "IsActive" (.pybool true)) "IsActive" = some (.pybool true)
    ∧ (∀ j, j < k → byteAt file (j * m.rs) = 0 →
        (∀ i, i < j → byteAt file (i * m.rs) ≠ 0) →
        add_record m file d = .ok (writeAt file (j * m.rs) packed, j * m.rs))
    ∧ ((∀ i, i < k → byteAt file (i * m.rs) ≠ 0) →
        add_record m file d = .ok (file ++ packed, file.length))
    ∧ (∀ j, j < k → (∀ i, i < k → byteAt file (i * m.rs) ≠ 0) →
        add_record m (writeAt file (j * m.rs) (packBool false)) d =
          .ok (writeAt (writeAt file (j * m.rs) (packBool false)) (j * m.rs) packed,
            j * m.rs)) := by
  have hpos := m.pos
  have hslot : ∀ j, j < k → j * m.rs + m.rs ≤ file.length := by
    intro j hj
    rw [hmult]
    have h1 : (j + 1) * m.rs ≤ k * m.rs := Nat.mul_le_mul_right _ (by omega)
    rw [Nat.succ_mul] at h1
    omega
  refine ⟨dget_dset_self d "IsActive" (.pybool true), ?_, ?_, ?_⟩
  · intro j hj hflag hmin
    have hminw : ∀ o, m.rs ∣ o → o < j * m.rs → byteAt file o ≠ 0 := by
      rintro o ⟨i, rfl⟩ hlt
      have hij : i < j := by
        rw [mul_comm j m.rs] at hlt
        exact Nat.lt_of_mul_lt_mul_left hlt
      rw [mul_comm m.rs i]
      exact hmin i hij
    rw [add_record_eq m file d packed hpack,
      addFree_eq_some m file (j * m.rs) (dvd_mul_left m.rs j) (hslot j hj) hflag hminw]
  · intro hall
    have hallw : ∀ o, m.rs ∣ o → o + m.rs ≤ file.length → byteAt file o ≠ 0 := by
      rintro o ⟨i, rfl⟩ hrange
      rw [hmult] at hrange
      have hik : i < k := by
        have h1 : (i + 1) * m.rs ≤ k * m.rs := by
          rw [Nat.succ_mul, mul_comm i m.rs]
          omega
        have := Nat.le_of_mul_le_mul_right h1 hpos
        omega
      rw [mul_comm m.rs i]
      exact hall i hik
    rw [add_record_eq m file d packed hpack, addFree_eq_none m file hallw]
  · intro j hj hall
    have hK : j * m.rs ≤ file.length := by
      have := hslot j hj
      omega
    have hlen' : (writeAt file (j * m.rs) (packBool false)).length = file.length := by
      rw [length_writeAt _ _ _ hK]
      simp [packBool]
      have := hslot j hj
      omega
    have hbyte : ∀ o, byteAt (writeAt file (j * m.rs) (packBool false)) o =
        if o = j * m.rs then 0 else byteAt file o := by
      intro o
      rw [byteAt_writeAt _ _ _ _ hK]
      by_cases ho : o = j * m.rs
      · subst ho
        rw [if_pos (by simp [packBool]), if_pos rfl]
        simp [byteAt, packBool]
      · rw [if_neg (by simp [packBool]; omega), if_neg ho]
    have hminw : ∀ o, m.rs ∣ o → o < j * m.rs →
        byteAt (writeAt file (j * m.rs) (packBool false)) o ≠ 0 := by
      rintro o ⟨i, rfl⟩ hlt
      have hij : i < j := by
        rw [mul_comm j m.rs] at hlt
        exact Nat.lt_of_mul_lt_mul_left hlt
      rw [hbyte, if_neg (by omega : ¬ m.rs * i = j * m.rs), mul_comm m.rs i]
      exact hall i (by omega)
    rw [add_record_eq m _ d packed hpack,
      addFree_eq_some m _ (j * m.rs) (dvd_mul_left m.rs j)
        (by rw [hlen']; exact hslot j hj) (by rw [hbyte, if_pos rfl]) hminw]

/-- A concrete rental field dictionary used by several witnesses. -/
def rentalDictW : PyDict :=
  [("ID", .pyint 1), ("CustomerID", .pyint 1), ("CarID", .pyint 1),
   ("StartDate", .pyint 1012025), ("EndDate", .pyint 3012025), ("TotalPrice", .pyfloat 100)]

/-- The bytes `rentalPack` produces for `rentalDictW` with the flag forced true
(one full active slot). -/
def rentalPackedW : List Nat :=
  [1, 1, 0, 0, 0, 1, 0, 0, 0, 1, 0, 0, 0, 57, 113, 15, 0, 185, 245, 45, 0,
   100, 0, 0, 0, 0, 0, 0, 0]

theorem c1_add_first_fit_witness :
    add_record rentalManager (writeAt rentalPackedW (0 * rentalManager.rs) (packBool false)) rentalDictW =
      .ok (writeAt (writeAt rentalPackedW (0 * rentalManager.rs) (packBool false))
        (0 * rentalManager.rs) rentalPackedW, 0 * rentalManager.rs) :=
  (c1_add_first_fit rentalManager rentalPackedW 1 rentalDictW rentalPackedW (by decide)
    (by decide)).2.2.2 0 (by decide) (by decide)

/-! ## Claim C9: the file is always a whole number of slots -/

theorem packI32_length (x : Int) (bs : List Nat) (h : packI32 x = .ok bs) : bs.length = 4 := by
  rw [packI32] at h
  split at h
  · injection h with h'
    rw [← h']
    exact length_toLE _ _
  · cases h

theorem rentalPack_tail_length (d : PyDict) (i ci cari sd ed : Int) (bs : List Nat)
    (h : Except.bind (dgetFloat d "TotalPrice") (fun tp =>
          Except.bind (packI32 i) (fun ib =>
          Except.bind (packI32 ci) (fun cib =>
          Except.bind (packI32 cari) (fun carib =>
          Except.bind (packI32 sd) (fun sdb =>
          Except.bind (packI32 ed) (fun edb =>
          Except.ok (packBool (dgetActiveD d) ++ ib ++ cib ++ carib ++ sdb ++ edb ++
            packF64 tp))))))) = .ok bs) :
    bs.length = 29 := by
  cases h5 : dgetFloat d "TotalPrice" with
  | error e => simp [h5, Except.bind] at h
  | ok tp =>
  cases h6 : packI32 i with
  | error e => simp [h5, h6, Except.bind] at h
  | ok ib =>
  cases h7 : packI32 ci with
  | error e => simp [h5, h6, h7, Except.bind] at h
  | ok cib =>
  cases h8 : packI32 cari with
  | error e => simp [h5, h6, h7, h8, Except.bind] at h
  | ok carib =>
  cases h9 : packI32 sd with
  | error e => simp [h5, h6, h7, h8, h9, Except.bind] at h
  | ok sdb =>
  cases h10 : packI32 ed with
  | error e => simp [h5, h6, h7, h8, h9, h10, Except.bind] at h
  | ok edb =>
  simp only [h5, h6, h7, h8, h9, h10, Except.bind, Except.ok.injEq] at h
  rw [← h]
  simp [packBool, packF64, length_toLE, packI32_length _ _ h6, packI32_length _ _ h7,
    packI32_length _ _ h8, packI32_length _ _ h9, packI32_length _ _ h10]

theorem rentalPack_length (d : PyDict) (bs : List Nat) (h : rentalPack d = .ok bs) :
    bs.length = 29 := by
  rw [rentalPack] at h
  cases h1 : dgetInt d "ID" with
  | error e => simp [h1, bind, Except.bind] at h
  | ok i =>
  cases h2 : dgetInt d "CustomerID" with
  | error e => simp [h1, h2, bind, Except.bind] at h
  | ok ci =>
  cases h3 : dgetInt d "CarID" with
  | error e => simp [h1, h2, h3, bind, Except.bind] at h
  | ok cari =>
  cases h4 : dgetInt d "StartDate" with
  | error e => simp [h1, h2, h3, h4, bind, Except.bind] at h
  | ok sd =>
  simp only [h1, h2, h3, h4, bind, Except.bind] at h
  cases h4e : dget d "EndDate" with
  | none =>
    rw [h4e] at h
    exact rentalPack_tail_length d i ci cari sd 0 bs h
  | some v =>
    cases v with
    | pyint n =>
      rw [h4e] at h
      exact rentalPack_tail_length d i ci cari sd n bs h
    | pybool b =>
      rw [h4e] at h
      exact rentalPack_tail_length d i ci cari sd (if b then 1 else 0) bs h
    | pystr s2 =>
      rw [h4e] at h
      exact Except.noConfusion h
    | pyfloat bits =>
      rw [h4e] at h
      exact Except.noConfusion h

theorem addFree_some (m : Manager) (f : List Nat) (off : Nat) (h : addFree m f = some off) :
    m.rs ∣ off ∧ off + m.rs ≤ f.length ∧ byteAt f off = 0 := by
  obtain ⟨_, h2, h3, h4, _⟩ := addFreeAux_some m f _ 0 off h
  exact ⟨by simpa using h2, h3, h4⟩

theorem add_record_ok (m : Manager) (f : List Nat) (d : PyDict) (f' : List Nat) (off : Nat)
    (hlen : ∀ d bs, m.pack d = .ok bs → bs.length = m.rs)
    (hf : m.rs ∣ f.length) (h : add_record m f d = .ok (f', off)) :
    m.rs ∣ off ∧ m.rs ∣ f'.length := by
  cases hp : m.pack (dset d "IsActive" (.pybool true)) with
  | error e =>
    rw [add_record, hp] at h
    exact absurd h (by simp [bind, Except.bind])
  | ok packed =>
    have hplen := hlen _ _ hp
    rw [add_record_eq m f d packed hp] at h
    cases haf : addFree m f with
    | some o =>
      rw [haf] at h
      injection h with h'
      injection h' with h1 h2
      subst h1
      subst h2
      obtain ⟨hd, hr, _⟩ := addFree_some m f o haf
      refine ⟨hd, ?_⟩
      rw [length_writeAt _ _ _ (by omega), hplen]
      have he : max f.length (o + m.rs) = f.length := by omega
      rw [he]
      exact hf
    | none =>
      rw [haf] at h
      injection h with h'
      injection h' with h1 h2
      subst h1
      subst h2
      refine ⟨hf, ?_⟩
      rw [List.length_append, hplen]
      exact Nat.dvd_add hf dvd_rfl

/-- One menu-level mutation of a store.  An operation that raises (a packing
exception) leaves the file as it was, since the exception is raised before the
write. -/
inductive StoreOp where
  | opAdd (d : PyDict)
  | opUpd (rid : Int) (nd : PyDict)
  | opDel (rid : Int)

/-- The file after one operation. -/
def applyOp (m : Manager) (f : List Nat) : StoreOp → List Nat
  | .opAdd d =>
    match add_record m f d with
    | .ok (f', _) => f'
    | .error _ => f
  | .opUpd rid nd =>
    match update_record m f rid nd with
    | .ok (_, f') => f'
    | .error _ => f
  | .opDel rid => (delete_record m f rid).2

/-- The file after a sequence of operations, starting from the empty file the
constructor creates. -/
def applyOps (m : Manager) (f : List Nat) (ops : List StoreOp) : List Nat :=
  ops.foldl (applyOp m) f

theorem applyOp_dvd (m : Manager)
    (hlen : ∀ d bs, m.pack d = .ok bs → bs.length = m.rs)
    (f : List Nat) (op : StoreOp) (hf : m.rs ∣ f.length) :
    m.rs ∣ (applyOp m f op).length := by
  have hpos := m.pos
  cases op with
  | opAdd d =>
    rw [applyOp]
    cases h : add_record m f d with
    | error e => exact hf
    | ok p =>
      obtain ⟨f', off⟩ := p
      exact (add_record_ok m f d f' off hlen hf h).2
  | opUpd rid nd =>
    rw [applyOp]
    cases hg : get_record_by_id m f rid with
    | none =>
      rw [update_record, hg]
      exact hf
    | some q =>
      obtain ⟨old, off⟩ := q
      obtain ⟨_, hr, _, _, _⟩ := getById_some m f rid old off hg
      rw [update_record, hg]
      cases hu : updMerge old rid nd with
      | error e =>
        simp only [hu, bind, Except.bind]
        exact hf
      | ok u =>
        cases hpk : m.pack u with
        | error e =>
          simp only [hu, hpk, bind, Except.bind]
          exact hf
        | ok packed =>
          simp only [hu, hpk, bind, Except.bind]
          show m.rs ∣ (writeAt f off packed).length
          rw [length_writeAt _ _ _ (by omega), hlen _ _ hpk]
          have he : max f.length (off + m.rs) = f.length := by omega
          rw [he]
          exact hf
  | opDel rid =>
    rw [applyOp, delete_record]
    cases hg : get_record_by_id m f rid with
    | none => exact hf
    | some q =>
      obtain ⟨old, off⟩ := q
      obtain ⟨_, hr, _, _, _⟩ := getById_some m f rid old off hg
      show m.rs ∣ (writeAt f off (packBool false)).length
      rw [length_writeAt _ _ _ (by omega)]
      have he : max f.length (off + (packBool false).length) = f.length := by
        simp [packBool]
        omega
      rw [he]
      exact hf

theorem applyOps_dvd (m : Manager)
    (hlen : ∀ d bs, m.pack d = .ok bs → bs.length = m.rs)
    (ops : List StoreOp) :
    ∀ f, m.rs ∣ f.length → m.rs ∣ (applyOps m f ops).length := by
  induction ops with
  | nil => intro f hf; exact hf
  | cons op t ih =>
    intro f hf
    exact ih _ (applyOp_dvd m hlen f op hf)

/-- C9.  Starting from the empty file, every sequence of add, update and
delete operations keeps the file an exact whole number of `RecordSize` slots,
and every offset an `add_record` on such a store returns is a multiple of
`RecordSize` (with the post-add file again a whole number of slots). -/
theorem c9_slot_invariant (m : Manager)
    (hlen : ∀ d bs, m.pack d = .ok bs → bs.length = m.rs) (ops : List StoreOp) :
    m.rs ∣ (applyOps m [] ops).length
    ∧ (∀ d f' off, add_record m (applyOps m [] ops) d = .ok (f', off) →
        m.rs ∣ off ∧ m.rs ∣ f'.length) := by
  have hg : m.rs ∣ (applyOps m [] ops).length := applyOps_dvd m hlen ops [] (by simp)
  exact ⟨hg, fun d f' off h => add_record_ok m _ d f' off hlen hg h⟩

theorem c9_slot_invariant_witness :
    rentalManager.rs ∣ (applyOps rentalManager []
        [StoreOp.opAdd rentalDictW, StoreOp.opAdd rentalDictW]).length
    ∧ rentalManager.rs ∣ 58 ∧ rentalManager.rs ∣ (87 : Nat) :=
  have h := c9_slot_invariant rentalManager rentalPack_length
    [StoreOp.opAdd rentalDictW, StoreOp.opAdd rentalDictW]
  have h2 := h.2 rentalDictW
    (applyOps rentalManager [] [StoreOp.opAdd rentalDictW, StoreOp.opAdd rentalDictW]
      ++ rentalPackedW) 58 (by decide)
  ⟨h.1, by simpa using h2.1, by simpa using h2.2⟩

/-! ## Claim C2: update merges in place -/

theorem updMerge_dget (old : PyDict) (rid : Int) (nd : PyDict) (av : PyVal) (u : PyDict)
    (hav : dget old "IsActive" = some av) (hnd : (nd.map Prod.fst).Nodup)
    (hu : updMerge old rid nd = .ok u) :
    dget u "ID" = some (.pyint rid)
    ∧ dget u "IsActive" = some av
    ∧ (∀ k v, k ≠ "ID" → k ≠ "IsActive" → dget nd k = some v → dget u k = some v)
    ∧ (∀ k, k ≠ "ID" → k ≠ "IsActive" → k ≠ "EndDate" → dget nd k = none →
        dget u k = dget old k)
    ∧ (dget nd "EndDate" = none → (dget old "EndDate").isSome →
        dget u "EndDate" = dget old "EndDate") := by
  have havE : dgetE old "IsActive" = .ok av := by rw [dgetE, hav]
  rw [updMerge] at hu
  simp only [havE, bind, Except.bind, Except.ok.injEq] at hu
  subst hu
  constructor
  · rw [dget_dset_ne _ _ _ _ (by decide), dget_dset_self]
  constructor
  · rw [dget_dset_self]
  constructor
  · intro k v hk1 hk2 hv
    rw [dget_dset_ne _ _ _ _ (Ne.symm hk2), dget_dset_ne _ _ _ _ (Ne.symm hk1),
      dget_dmerge_of_some _ _ _ _ hnd hv]
  constructor
  · intro k hk1 hk2 hk3 hnone
    rw [dget_dset_ne _ _ _ _ (Ne.symm hk2), dget_dset_ne _ _ _ _ (Ne.symm hk1),
      dget_dmerge_of_none _ _ _ hnone, dget_dset_ne _ _ _ _ (Ne.symm hk2),
      dget_dset_ne _ _ _ _ (Ne.symm hk1), dget_dmerge_of_none _ _ _ hnone]
    split
    · rfl
    · rw [dget_dset_ne _ _ _ _ (Ne.symm hk3)]
  · intro hnone hsome
    rw [dget_dset_ne _ _ _ _ (by decide), dget_dset_ne _ _ _ _ (by decide),
      dget_dmerge_of_none _ _ _ hnone, dget_dset_ne _ _ _ _ (by decide),
      dget_dset_ne _ _ _ _ (by decide), dget_dmerge_of_none _ _ _ hnone, if_pos hsome]

/-- C2.  When the store holds an active record with the requested id,
`update_record` re-encodes and overwrites that record at its same byte offset
(never relocating it): the re-encoded dictionary carries every field mentioned
in the partial update, preserves every unmentioned field of the old record,
and forces `ID` and `IsActive` back to their prior values even when the
partial update tries to change them; all bytes outside the record's slot are
unchanged and the file keeps its length.  (`EndDate` is special only for
entities that do not store such a field at all: a missing `EndDate` is
defaulted to `0` in the merge dictionary, and their codecs ignore it.)  When
no active record has the id, update reports `False` and the file is
byte-for-byte unchanged. -/
theorem c2_update_in_place (m : Manager) (file : List Nat) (rid : Int) (nd : PyDict) :
    (∀ old off av u packed,
      get_record_by_id m file rid = some (old, off) →
      dget old "IsActive" = some av →
      (nd.map Prod.fst).Nodup →
      updMerge old rid nd = .ok u →
      m.pack u = .ok packed →
      packed.length = m.rs →
      update_record m file rid nd = .ok (true, writeAt file off packed)
      ∧ (writeAt file off packed).length = file.length
      ∧ (∀ i, i < off ∨ off + m.rs ≤ i →
          byteAt (writeAt file off packed) i = byteAt file i)
      ∧ idEq old rid = true
      ∧ dget u "ID" = some (.pyint rid)
      ∧ dget u "IsActive" = some av
      ∧ (∀ k v, k ≠ "ID" → k ≠ "IsActive" → dget nd k = some v → dget u k = some v)
      ∧ (∀ k, k ≠ "ID" → k ≠ "IsActive" → k ≠ "EndDate" → dget nd k = none →
          dget u k = dget old k)
      ∧ (dget nd "EndDate" = none → (dget old "EndDate").isSome →
          dget u "EndDate" = dget old "EndDate"))
    ∧ (get_record_by_id m file rid = none → update_record m file rid nd = .ok (false, file)) := by
  constructor
  · intro old off av u packed hget hav hnd hu hpk hplen
    have hpos := m.pos
    obtain ⟨hdvd, hrange, hunp, hhit, hmin⟩ := getById_some m file rid old off hget
    obtain ⟨g1, g2, g3, g4, g5⟩ := updMerge_dget old rid nd av u hav hnd hu
    refine ⟨?_, ?_, ?_, ?_, g1, g2, g3, g4, g5⟩
    · rw [update_record, hget]
      simp only [hu, hpk, bind, Except.bind]
    · rw [length_writeAt _ _ _ (by omega), hplen]
      omega
    · intro i hi
      rw [byteAt_writeAt _ _ _ _ (by omega), if_neg (by omega)]
    · rw [isHit] at hhit
      exact (Bool.and_eq_true_iff.mp hhit).2
  · intro hget
    rw [update_record, hget]

theorem c2_update_in_place_witness :
    update_record rentalManager rentalPackedW 1
        [("TotalPrice", .pyfloat 200), ("ID", .pyint 99), ("IsActive", .pybool false)] =
      .ok (true, writeAt rentalPackedW 0
        [1, 1, 0, 0, 0, 1, 0, 0, 0, 1, 0, 0, 0, 57, 113, 15, 0, 185, 245, 45, 0,
         200, 0, 0, 0, 0, 0, 0, 0]) :=
  ((c2_update_in_place rentalManager rentalPackedW 1
      [("TotalPrice", .pyfloat 200), ("ID", .pyint 99), ("IsActive", .pybool false)]).1
    [("IsActive", .pybool true), ("ID", .pyint 1), ("CustomerID", .pyint 1),
     ("CarID", .pyint 1), ("StartDate", .pyint 1012025), ("EndDate", .pyint 3012025),
     ("TotalPrice", .pyfloat 100)]
    0 (.pybool true)
    [("IsActive", .pybool true), ("ID", .pyint 1), ("CustomerID", .pyint 1),
     ("CarID", .pyint 1), ("StartDate", .pyint 1012025), ("EndDate", .pyint 3012025),
     ("TotalPrice", .pyfloat 200)]
    [1, 1, 0, 0, 0, 1, 0, 0, 0, 1, 0, 0, 0, 57, 113, 15, 0, 185, 245, 45, 0,
     200, 0, 0, 0, 0, 0, 0, 0]
    (by decide) (by decide) (by decide) (by decide) (by decide) (by decide)).1

/-! ## Claim C3: delete writes a single tombstone byte -/

theorem byteAt_readAt_zero (f : List Nat) (o n : Nat) (hn : 0 < n) :
    byteAt (readAt f o n) 0 = byteAt f o := by
  simp only [byteAt, List.getD_eq_getElem?_getD, getElem?_readAt, if_pos hn]
  rw [Nat.add_zero]

theorem byteAt_take_zero (bs : List Nat) (n : Nat) (hn : 0 < n) :
    byteAt (bs.take n) 0 = byteAt bs 0 := by
  simp only [byteAt, List.getD_eq_getElem?_getD, List.getElem?_take, if_pos hn]

/-- An active decoded rental record always comes from a slot with a non-zero
flag byte, because `_unpack_record` reads `IsActive` from byte 0. -/
theorem rentalManager_active_flag : ∀ bs dd, bs.length = rentalManager.rs →
    rentalManager.unpack bs = .ok dd → isActiveD dd = true → byteAt bs 0 ≠ 0 := by
  intro bs dd hlen hu hact
  have hlen29 : bs.length = 29 := hlen
  have hu' : rentalUnpack bs = .ok dd := hu
  rw [rentalUnpack, if_pos hlen29] at hu'
  injection hu' with h'
  subst h'
  rw [isActiveD] at hact
  simp only [dget, if_pos rfl, pyTruthy] at hact
  rw [unpackBool, byteAt_take_zero _ _ (by omega)] at hact
  simpa using hact

/-- C3.  When the store holds exactly one active record with the requested id,
at byte offset `K`, `delete_record` writes exactly the one false flag byte
`b'\x00'` at offset `K`: every byte other than byte `K` (in particular the
remaining `RecordSize - 1` payload bytes of that slot and all other slots) is
unchanged, the file keeps its length, and afterwards `get_record_by_id`
reports the id as not found even though the payload bytes are still there.
The flag hypothesis holds for each of the three codecs: a slot whose decoded
record is active has a non-zero leading byte. -/
theorem c3_delete_tombstone (m : Manager) (file : List Nat) (rid : Int) (r : PyDict) (K : Nat)
    (hget : get_record_by_id m file rid = some (r, K))
    (huniq : ∀ off, off < file.length → m.rs ∣ off → off ≠ K → slotHit m file rid off = false)
    (hflag : ∀ bs dd, bs.length = m.rs → m.unpack bs = .ok dd → isActiveD dd = true →
        byteAt bs 0 ≠ 0) :
    delete_record m file rid = (true, writeAt file K (packBool false))
    ∧ (writeAt file K (packBool false)).length = file.length
    ∧ (∀ i, i ≠ K → byteAt (writeAt file K (packBool false)) i = byteAt file i)
    ∧ get_record_by_id m (writeAt file K (packBool false)) rid = none := by
  have hpos := m.pos
  obtain ⟨hdvd, hrange, hunp, hhit, hmin⟩ := getById_some m file rid r K hget
  have hKlen : K ≤ file.length := by omega
  have hlen' : (writeAt file K (packBool false)).length = file.length := by
    rw [length_writeAt _ _ _ hKlen]
    simp [packBool]
    omega
  refine ⟨by rw [delete_record, hget], hlen', ?_, ?_⟩
  · intro i hi
    rw [byteAt_writeAt _ _ _ _ hKlen, if_neg (by simp [packBool]; omega)]
  · apply getById_eq_none
    intro o ho
    by_cases hor : o + m.rs ≤ (writeAt file K (packBool false)).length
    · by_cases hoK : o = K
      · subst hoK
        rw [slotHit]
        cases hu : m.unpack (readAt (writeAt file o (packBool false)) o m.rs) with
        | error e => simp
        | ok dd =>
          have hb : byteAt (readAt (writeAt file o (packBool false)) o m.rs) 0 = 0 := by
            rw [byteAt_readAt_zero _ _ _ hpos, byteAt_writeAt _ _ _ _ hKlen,
              if_pos (by simp [packBool])]
            simp [byteAt, packBool]
          have hbl : (readAt (writeAt file o (packBool false)) o m.rs).length = m.rs := by
            rw [length_readAt, hlen']
            omega
          have hact : isActiveD dd = false := by
            by_contra hc
            exact hflag _ dd hbl hu (by simpa using hc) hb
          simp [isHit, hact]
      · have hread : readAt (writeAt file K (packBool false)) o m.rs = readAt file o m.rs := by
          rcases Nat.lt_or_ge o K with holt | hogt
          · exact readAt_writeAt_left _ _ _ _ _
              (by
                have := aligned_add_le m.rs o K ho hdvd holt
                omega) hKlen
          · have hKo : K < o := by omega
            exact readAt_writeAt_right _ _ _ _ _
              (by
                have := aligned_add_le m.rs K o hdvd ho hKo
                simp [packBool]
                omega) hKlen
        rw [slotHit, hread, hlen']
        have := huniq o (by rw [hlen'] at hor; omega) ho hoK
        rw [slotHit] at this
        rw [hlen'] at hor
        simpa [hor] using this
    · rw [slotHit]
      rw [decide_eq_false (by omega)]
      simp

theorem c3_delete_tombstone_witness :
    delete_record rentalManager rentalPackedW 1 =
      (true, writeAt rentalPackedW 0 (packBool false))
    ∧ get_record_by_id rentalManager (writeAt rentalPackedW 0 (packBool false)) 1 = none :=
  have h := c3_delete_tombstone rentalManager rentalPackedW 1
    [("IsActive", .pybool true), ("ID", .pyint 1), ("CustomerID", .pyint 1),
     ("CarID", .pyint 1), ("StartDate", .pyint 1012025), ("EndDate", .pyint 3012025),
     ("TotalPrice", .pyfloat 100)]
    0 (by decide) (by decide) (rentalManager_active_flag)
  ⟨h.1, h.2.2.2⟩

/-! ## Claim C10: `add_record` never checks id uniqueness -/

/-- C10.  `add_record` performs no id-uniqueness check: on a store that
already holds an active record with id `X` (at offset `K`), adding another
record with id `X` succeeds and returns an offset, necessarily a different
slot; afterwards both slots decode to active records with id `X`,
`get_record_by_id X` returns the record at the lower of the two byte offsets,
and `get_all_records` yields both records. -/
theorem c10_duplicate_ids (m : Manager) (file : List Nat) (X : Int) (d : PyDict)
    (packed : List Nat) (r nr : PyDict) (K k : Nat)
    (hmult : file.length = k * m.rs)
    (hget : get_record_by_id m file X = some (r, K))
    (hpack : m.pack (dset d "IsActive" (.pybool true)) = .ok packed)
    (hplen : packed.length = m.rs)
    (hnew : m.unpack packed = .ok nr)
    (hnewhit : isHit nr X = true)
    (hflag : ∀ bs dd, bs.length = m.rs → m.unpack bs = .ok dd → isActiveD dd = true →
        byteAt bs 0 ≠ 0) :
    ∃ f' off, add_record m file d = .ok (f', off)
      ∧ off ≠ K
      ∧ slotHit m f' X K = true
      ∧ slotHit m f' X off = true
      ∧ get_record_by_id m f' X = some (if off < K then (nr, off) else (r, K))
      ∧ r ∈ get_all_records m f'
      ∧ nr ∈ get_all_records m f' := by
  have hpos := m.pos
  obtain ⟨hKdvd, hKrange, hKunp, hKhit, hKmin⟩ := getById_some m file X r K hget
  have hKact : isActiveD r = true := (Bool.and_eq_true_iff.mp hKhit).1
  have hnact : isActiveD nr = true := (Bool.and_eq_true_iff.mp hnewhit).1
  have hKflag : byteAt file K ≠ 0 := by
    have hbl : (readAt file K m.rs).length = m.rs := by
      rw [length_readAt]
      omega
    have hres := hflag _ r hbl hKunp hKact
    rwa [byteAt_readAt_zero _ _ _ hpos] at hres
  rw [add_record_eq m file d packed hpack]
  cases haf : addFree m file with
  | some o =>
    obtain ⟨hodvd, horange, hoflag⟩ := addFree_some m file o haf
    have hoK : o ≠ K := fun he => hKflag (he ▸ hoflag)
    have hlen' : (writeAt file o packed).length = file.length := by
      rw [length_writeAt _ _ _ (by omega), hplen]
      omega
    have hreado : readAt (writeAt file o packed) o m.rs = packed := by
      have hself := readAt_writeAt_self file o packed (by omega)
      rwa [hplen] at hself
    have hread2 : ∀ o2, m.rs ∣ o2 → o2 ≠ o → o2 + m.rs ≤ file.length →
        readAt (writeAt file o packed) o2 m.rs = readAt file o2 m.rs := by
      intro o2 h2 hne hr2
      rcases Nat.lt_or_ge o2 o with hlt | hge
      · exact readAt_writeAt_left _ _ _ _ _ (aligned_add_le _ _ _ h2 hodvd hlt) (by omega)
      · have hlt2 : o < o2 := lt_of_le_of_ne hge (Ne.symm hne)
        exact readAt_writeAt_right _ _ _ _ _
          (by
            rw [hplen]
            exact aligned_add_le _ _ _ hodvd h2 hlt2) (by omega)
    have htrans : ∀ o2, m.rs ∣ o2 → o2 ≠ o →
        slotHit m (writeAt file o packed) X o2 = slotHit m file X o2 := by
      intro o2 h2 hne
      by_cases hr2 : o2 + m.rs ≤ file.length
      · rw [slotHit, slotHit, hread2 o2 h2 hne hr2, hlen']
      · rw [slotHit, slotHit, hlen', decide_eq_false hr2]
        simp
    have hsK : slotHit m (writeAt file o packed) X K = true := by
      rw [slotHit, hread2 K hKdvd (fun he => hoK he.symm) hKrange, hKunp, hlen']
      simp [hKhit, hKrange]
    have hso : slotHit m (writeAt file o packed) X o = true := by
      rw [slotHit, hreado, hnew, hlen']
      simp [hnewhit]
      omega
    refine ⟨writeAt file o packed, o, rfl, hoK, hsK, hso, ?_, ?_, ?_⟩
    · rcases Nat.lt_or_ge o K with holt | hoge
      · rw [if_pos holt]
        apply getById_first m _ X nr o hodvd (by omega) (by rw [hreado]; exact hnew) hnewhit
        intro o2 h2 hlt
        rw [htrans o2 h2 (by omega)]
        exact hKmin o2 h2 (by omega)
      · have hKo : K < o := lt_of_le_of_ne hoge (Ne.symm hoK)
        rw [if_neg (by omega)]
        apply getById_first m _ X r K hKdvd (by omega)
          (by rw [hread2 K hKdvd (by omega) hKrange]; exact hKunp) hKhit
        intro o2 h2 hlt
        rw [htrans o2 h2 (by omega)]
        exact hKmin o2 h2 hlt
    · exact mem_get_all m _ r K hKdvd (by omega)
        (by rw [hread2 K hKdvd (fun he => hoK he.symm) hKrange]; exact hKunp) hKact
    · exact mem_get_all m _ nr o hodvd (by omega) (by rw [hreado]; exact hnew) hnact
  | none =>
    have hKlt : K < file.length := by omega
    have hlen' : (file ++ packed).length = file.length + m.rs := by
      rw [List.length_append, hplen]
    have hreado : readAt (file ++ packed) file.length m.rs = packed := by
      have hself := readAt_append_self file packed
      rwa [hplen] at hself
    have hread2 : ∀ o2, o2 + m.rs ≤ file.length →
        readAt (file ++ packed) o2 m.rs = readAt file o2 m.rs := by
      intro o2 hr2
      exact readAt_append_left _ _ _ _ hr2
    have hsK : slotHit m (file ++ packed) X K = true := by
      rw [slotHit, hread2 K hKrange, hKunp, hlen']
      simp [hKhit]
      omega
    have hso : slotHit m (file ++ packed) X file.length = true := by
      rw [slotHit, hreado, hnew, hlen']
      simp [hnewhit]
    refine ⟨file ++ packed, file.length, rfl, by omega, hsK, hso, ?_, ?_, ?_⟩
    · rw [if_neg (by omega)]
      apply getById_first m _ X r K hKdvd (by omega)
        (by rw [hread2 K hKrange]; exact hKunp) hKhit
      intro o2 h2 hlt
      have hr2 : o2 + m.rs ≤ file.length := by
        have := aligned_add_le m.rs o2 K h2 hKdvd hlt
        omega
      have hfalse := hKmin o2 h2 hlt
      rw [slotHit, hread2 o2 hr2, hlen']
      rw [slotHit] at hfalse
      rw [decide_eq_true hr2] at hfalse
      rw [decide_eq_true (by omega)]
      exact hfalse
    · exact mem_get_all m _ r K hKdvd (by omega) (by rw [hread2 K hKrange]; exact hKunp) hKact
    · exact mem_get_all m _ nr file.length (hmult ▸ dvd_mul_left m.rs k) (by omega)
        (by rw [hreado]; exact hnew) hnact

theorem c10_duplicate_ids_witness :
    ∃ f' off, add_record rentalManager rentalPackedW rentalDictW = .ok (f', off)
      ∧ off ≠ 0
      ∧ slotHit rentalManager f' 1 0 = true
      ∧ slotHit rentalManager f' 1 off = true
      ∧ get_record_by_id rentalManager f' 1 =
          some (if off < 0 then
            ([("IsActive", .pybool true), ("ID", .pyint 1), ("CustomerID", .pyint 1),
              ("CarID", .pyint 1), ("StartDate", .pyint 1012025), ("EndDate", .pyint 3012025),
              ("TotalPrice", .pyfloat 100)], off)
          else
            ([("IsActive", .pybool true), ("ID", .pyint 1), ("CustomerID", .pyint 1),
              ("CarID", .pyint 1), ("StartDate", .pyint 1012025), ("EndDate", .pyint 3012025),
              ("TotalPrice", .pyfloat 100)], 0))
      ∧ [("IsActive", PyVal.pybool true), ("ID", PyVal.pyint 1), ("CustomerID", PyVal.pyint 1),
          ("CarID", PyVal.pyint 1), ("StartDate", PyVal.pyint 1012025),
          ("EndDate", PyVal.pyint 3012025), ("TotalPrice", PyVal.pyfloat 100)] ∈
          get_all_records rentalManager f'
      ∧ [("IsActive", PyVal.pybool true), ("ID", PyVal.pyint 1), ("CustomerID", PyVal.pyint 1),
          ("CarID", PyVal.pyint 1), ("StartDate", PyVal.pyint 1012025),
          ("EndDate", PyVal.pyint 3012025), ("TotalPrice", PyVal.pyfloat 100)] ∈
          get_all_records rentalManager f' :=
  c10_duplicate_ids rentalManager rentalPackedW 1 rentalDictW rentalPackedW
    [("IsActive", .pybool true), ("ID", .pyint 1), ("CustomerID", .pyint 1),
     ("CarID", .pyint 1), ("StartDate", .pyint 1012025), ("EndDate", .pyint 3012025),
     ("TotalPrice", .pyfloat 100)]
    [("IsActive", .pybool true), ("ID", .pyint 1), ("CustomerID", .pyint 1),
     ("CarID", .pyint 1), ("StartDate", .pyint 1012025), ("EndDate", .pyint 3012025),
     ("TotalPrice", .pyfloat 100)]
    0 1 (by decide) (by decide) (by decide) (by decide) (by decide) (by decide)
    rentalManager_active_flag

/-! ## UTF-8 round trip -/

theorem utf8EncodeChar_shape (c : Nat) : ∃ b tl, utf8EncodeChar c = b :: tl := by
  rw [utf8EncodeChar]
  split_ifs <;> exact ⟨_, _, rfl⟩

theorem utf8EncodeChar_ne_zero (c : Nat) (hc : c ≠ 0) : ∀ b ∈ utf8EncodeChar c, b ≠ 0 := by
  rw [utf8EncodeChar]
  split_ifs with h1 h2 h3 <;> intro b hb <;>
    simp only [List.mem_cons, List.not_mem_nil, or_false] at hb <;> omega

theorem validScalar_props (c : Nat) (hc : validScalar c = true) :
    c < 0x110000 ∧ ¬(0xD800 ≤ c ∧ c < 0xE000) := by
  rw [validScalar] at hc
  simp only [Bool.and_eq_true, decide_eq_true_eq, Bool.not_eq_true'] at hc
  obtain ⟨h1, h2⟩ := hc
  refine ⟨h1, ?_⟩
  intro hs
  simp only [Bool.and_eq_false_iff, decide_eq_false_iff_not] at h2
  omega

theorem utf8Next_encodeChar (c : Nat) (hc : validScalar c = true) (bs : List Nat) :
    utf8Next (utf8EncodeChar c ++ bs) = some (c, (utf8EncodeChar c).length) := by
  obtain ⟨hlt, hsur⟩ := validScalar_props c hc
  rw [utf8EncodeChar]
  by_cases h1 : c < 0x80
  · rw [if_pos h1]
    simp only [List.cons_append, List.nil_append, utf8Next, if_pos h1, List.length_cons,
      List.length_nil]
  · rw [if_neg h1]
    by_cases h2 : c < 0x800
    · rw [if_pos h2]
      simp only [List.cons_append, List.nil_append, utf8Next]
      rw [if_neg (by omega), if_pos (by omega), if_pos (by omega)]
      have hx : (0xC0 + c / 64 - 0xC0) * 64 + (0x80 + c % 64 - 0x80) = c := by omega
      rw [hx]
      norm_num
    · rw [if_neg h2]
      by_cases h3 : c < 0x10000
      · rw [if_pos h3]
        simp only [List.cons_append, List.nil_append, utf8Next]
        rw [if_neg (by omega), if_neg (by omega), if_pos (by omega), if_pos (by omega)]
        have hx : (0xE0 + c / 4096 - 0xE0) * 4096 + (0x80 + c / 64 % 64 - 0x80) * 64 +
            (0x80 + c % 64 - 0x80) = c := by omega
        rw [hx]
        norm_num
      · rw [if_neg h3]
        simp only [List.cons_append, List.nil_append, utf8Next]
        rw [if_neg (by omega), if_neg (by omega), if_neg (by omega), if_pos (by omega),
          if_pos (by omega)]
        have hx : (0xF0 + c / 262144 - 0xF0) * 262144 + (0x80 + c / 4096 % 64 - 0x80) * 4096 +
            (0x80 + c / 64 % 64 - 0x80) * 64 + (0x80 + c % 64 - 0x80) = c := by omega
        rw [hx]
        norm_num



theorem utf8DecodeIgnoreAux_nil (fuel : Nat) : utf8DecodeIgnoreAux fuel [] = [] := by
  cases fuel <;> rfl

theorem utf8DecodeIgnoreAux_congr :
    ∀ f1 f2 bs, bs.length ≤ f1 → bs.length ≤ f2 →
      utf8DecodeIgnoreAux f1 bs = utf8DecodeIgnoreAux f2 bs := by
  intro f1
  induction f1 with
  | zero =>
    intro f2 bs h1 h2
    have : bs = [] := List.eq_nil_of_length_eq_zero (by omega)
    subst this
    rw [utf8DecodeIgnoreAux_nil, utf8DecodeIgnoreAux_nil]
  | succ f1 ih =>
    intro f2 bs h1 h2
    cases bs with
    | nil => rw [utf8DecodeIgnoreAux_nil, utf8DecodeIgnoreAux_nil]
    | cons b rest =>
      cases f2 with
      | zero => simp at h2
      | succ f2 =>
        rw [utf8DecodeIgnoreAux, utf8DecodeIgnoreAux]
        cases hn : utf8Next (b :: rest) with
        | none =>
          exact ih f2 rest (by simp at h1; omega) (by simp at h2; omega)
        | some p =>
          obtain ⟨c, k⟩ := p
          have hd : (rest.drop (k - 1)).length ≤ rest.length := by
            rw [List.length_drop]
            omega
          show c :: utf8DecodeIgnoreAux f1 (rest.drop (k - 1)) =
            c :: utf8DecodeIgnoreAux f2 (rest.drop (k - 1))
          rw [ih f2 (rest.drop (k - 1)) (by simp at h1; omega) (by simp at h2; omega)]

theorem utf8DecodeIgnore_encodeChar_cons (c : Nat) (hc : validScalar c = true)
    (bs : List Nat) :
    utf8DecodeIgnore (utf8EncodeChar c ++ bs) = c :: utf8DecodeIgnore bs := by
  obtain ⟨b, tl, he⟩ := utf8EncodeChar_shape c
  have hnext := utf8Next_encodeChar c hc bs
  rw [he] at hnext
  have hlen : (utf8EncodeChar c).length = tl.length + 1 := by rw [he]; simp
  rw [utf8DecodeIgnore, he, List.cons_append]
  have hfl : (b :: (tl ++ bs)).length = (tl ++ bs).length + 1 := by simp
  rw [hfl, utf8DecodeIgnoreAux]
  rw [List.cons_append] at hnext
  rw [hnext]
  show c :: utf8DecodeIgnoreAux (tl ++ bs).length ((tl ++ bs).drop tl.length) =
    c :: utf8DecodeIgnore bs
  rw [List.drop_left' rfl, utf8DecodeIgnore]
  congr 1
  exact utf8DecodeIgnoreAux_congr _ _ bs (by simp) (by omega)

theorem utf8DecodeIgnore_encode (s : PyStr) (h : ∀ c ∈ s, validScalar c = true) :
    utf8DecodeIgnore ((s.map utf8EncodeChar).flatten) = s := by
  induction s with
  | nil => rfl
  | cons c t ih =>
    rw [List.map_cons, List.flatten_cons,
      utf8DecodeIgnore_encodeChar_cons c (h c (List.mem_cons_self _ _)),
      ih (fun c' hc' => h c' (List.mem_cons_of_mem _ hc'))]

/-! ## Claim C4: the codecs round-trip -/
theorem takeWhile_ne_zero_append (bs : List Nat) (k : Nat) (h : ∀ b ∈ bs, b ≠ 0) :
    (bs ++ List.replicate k 0).takeWhile (· != 0) = bs := by
  induction bs with
  | nil =>
    cases k with
    | zero => rfl
    | succ k => simp [List.replicate, List.takeWhile]
  | cons b t ih =>
    have hb : (b != 0) = true := by
      simp [bne_iff_ne]
      exact h b (List.mem_cons_self _ _)
    rw [List.cons_append, List.takeWhile_cons, hb]
    simp only [ih (fun x hx => h x (List.mem_cons_of_mem _ hx)), if_true]

theorem flatten_encode_ne_zero (s : PyStr) (hz : ¬ 0 ∈ s) :
    ∀ b ∈ (s.map utf8EncodeChar).flatten, b ≠ 0 := by
  intro b hb
  rw [List.mem_flatten] at hb
  obtain ⟨l, hl, hbl⟩ := hb
  rw [List.mem_map] at hl
  obtain ⟨c, hc, rfl⟩ := hl
  exact utf8EncodeChar_ne_zero c (fun he => hz (he ▸ hc)) b hbl

theorem pyDecodeField_roundtrip (s : PyStr) (k : Nat)
    (hs : ∀ c ∈ s, validScalar c = true) (hz : ¬ 0 ∈ s) (hstrip : pyStrip s = s) :
    pyDecodeField ((s.map utf8EncodeChar).flatten ++ List.replicate k 0) = s := by
  rw [pyDecodeField, takeWhile_ne_zero_append _ _ (flatten_encode_ne_zero s hz),
    utf8DecodeIgnore_encode s hs, hstrip]

theorem packS_eq_self (w : Nat) (bs : List Nat) (h : bs.length = w) : packS w bs = bs := by
  simp [packS, h, List.take_of_length_le (le_of_eq h)]



def carVal (bb : Bool) (i : Int) (mo pl : PyStr) (rb : Nat) : PyDict :=
  [("IsActive", .pybool bb), ("ID", .pyint i), ("Model", .pystr mo),
   ("LicensePlate", .pystr pl), ("DailyRate", .pyfloat rb)]

theorem slice_of_append (p a r : List Nat) (n w : Nat) (hp : p.length = n)
    (ha : a.length = w) : (((p ++ a) ++ r).drop n).take w = a := by
  rw [List.append_assoc, List.drop_left' hp, List.take_left' ha]

theorem car_roundtrip (bb : Bool) (i : Int) (mo pl : PyStr) (rb : Nat)
    (hmo1 : ∀ c ∈ mo, validScalar c = true) (hmo2 : ¬ 0 ∈ mo) (hmo3 : pyStrip mo = mo)
    (hmo4 : ((mo.map utf8EncodeChar).flatten).length ≤ 30)
    (hpl1 : ∀ c ∈ pl, validScalar c = true) (hpl2 : ¬ 0 ∈ pl) (hpl3 : pyStrip pl = pl)
    (hpl4 : ((pl.map utf8EncodeChar).flatten).length ≤ 10)
    (hi1 : -2^31 ≤ i) (hi2 : i < 2^31) (hrb : rb < 2^64) :
    ∃ bytes, carPack (carVal bb i mo pl rb) = .ok bytes ∧ bytes.length = 53 ∧
      carUnpack bytes = .ok (carVal bb i mo pl rb) := by
  obtain ⟨ib, hib, hiblen, hibval⟩ := unpackI32_packI32 i hi1 hi2
  have hemo : pyEncodeUtf8 mo = .ok ((mo.map utf8EncodeChar).flatten) := by
    rw [pyEncodeUtf8, if_pos (List.all_eq_true.mpr (fun c hc => hmo1 c hc))]
  have hepl : pyEncodeUtf8 pl = .ok ((pl.map utf8EncodeChar).flatten) := by
    rw [pyEncodeUtf8, if_pos (List.all_eq_true.mpr (fun c hc => hpl1 c hc))]
  have hg1 : dgetStr (carVal bb i mo pl rb) "Model" = .ok mo := rfl
  have hg2 : dgetStr (carVal bb i mo pl rb) "LicensePlate" = .ok pl := rfl
  have hg3 : dgetInt (carVal bb i mo pl rb) "ID" = .ok i := rfl
  have hg4 : dgetFloat (carVal bb i mo pl rb) "DailyRate" = .ok rb := rfl
  have hg5 : dgetActiveD (carVal bb i mo pl rb) = bb := rfl
  set emo := (mo.map utf8EncodeChar).flatten with hemo_def
  set epl := (pl.map utf8EncodeChar).flatten with hepl_def
  have hpack : carPack (carVal bb i mo pl rb) =
      .ok (packBool bb ++ ib ++ packS 30 (ljust emo 30) ++ packS 10 (ljust epl 10) ++
        packF64 rb) := by
    rw [carPack]
    simp only [hg1, hemo, hg2, hepl, hg3, hg4, hg5, hib, bind, Except.bind]
  refine ⟨_, hpack, ?_, ?_⟩
  · simp [packBool, packF64, length_toLE, length_packS, hiblen]
  · have l1 : (packBool bb).length = 1 := rfl
    have l3 : (packS 30 (ljust emo 30)).length = 30 := length_packS _ _
    have l4 : (packS 10 (ljust epl 10)).length = 10 := length_packS _ _
    have l5 : (packF64 rb).length = 8 := length_toLE _ _
    have hA3 : packS 30 (ljust emo 30) = emo ++ List.replicate (30 - emo.length) 0 := by
      rw [packS_eq_self 30 _ (by rw [length_ljust]; omega)]
      rfl
    have hA4 : packS 10 (ljust epl 10) = epl ++ List.replicate (10 - epl.length) 0 := by
      rw [packS_eq_self 10 _ (by rw [length_ljust]; omega)]
      rfl
    set B := packBool bb ++ ib ++ packS 30 (ljust emo 30) ++ packS 10 (ljust epl 10) ++
      packF64 rb with hB
    have hBlen : B.length = 53 := by
      rw [hB]
      simp [packBool, packF64, length_toLE, length_packS, hiblen]
    have s1 : B.take 1 = packBool bb := by
      have := slice_of_append [] (packBool bb)
        (ib ++ (packS 30 (ljust emo 30) ++ (packS 10 (ljust epl 10) ++ packF64 rb))) 0 1
        rfl l1
      simpa [hB, List.append_assoc] using this
    have s2 : (B.drop 1).take 4 = ib := by
      have := slice_of_append (packBool bb) ib
        (packS 30 (ljust emo 30) ++ (packS 10 (ljust epl 10) ++ packF64 rb)) 1 4 l1 hiblen
      simpa [hB, List.append_assoc] using this
    have s3 : (B.drop 5).take 30 = packS 30 (ljust emo 30) := by
      have := slice_of_append (packBool bb ++ ib) (packS 30 (ljust emo 30))
        (packS 10 (ljust epl 10) ++ packF64 rb) 5 30 (by simp [l1, hiblen]) l3
      simpa [hB, List.append_assoc] using this
    have s4 : (B.drop 35).take 10 = packS 10 (ljust epl 10) := by
      have := slice_of_append (packBool bb ++ ib ++ packS 30 (ljust emo 30))
        (packS 10 (ljust epl 10)) (packF64 rb) 35 10 (by simp [l1, hiblen, l3]) l4
      simpa [hB, List.append_assoc] using this
    have s5 : (B.drop 45).take 8 = packF64 rb := by
      have := slice_of_append
        (packBool bb ++ ib ++ packS 30 (ljust emo 30) ++ packS 10 (ljust epl 10))
        (packF64 rb) [] 45 8 (by simp [l1, hiblen, l3, l4]) l5
      simpa [hB, List.append_assoc] using this
    rw [carUnpack, if_pos hBlen, s1, s2, s3, s4, s5]
    have vb : unpackBool (packBool bb) = bb := by cases bb <;> rfl
    have vmo : pyDecodeField (packS 30 (ljust emo 30)) = mo := by
      rw [hA3]
      exact pyDecodeField_roundtrip mo _ hmo1 hmo2 hmo3
    have vpl : pyDecodeField (packS 10 (ljust epl 10)) = pl := by
      rw [hA4]
      exact pyDecodeField_roundtrip pl _ hpl1 hpl2 hpl3
    have vr : unpackF64 (packF64 rb) = rb := by
      rw [packF64, unpackF64]
      exact fromLE_toLE 8 rb (by norm_num at hrb ⊢; omega)
    rw [vb, hibval, vmo, vpl, vr]
    rfl



def customerVal (bb : Bool) (i : Int) (na ph : PyStr) : PyDict :=
  [("IsActive", .pybool bb), ("ID", .pyint i), ("Name", .pystr na), ("Phone", .pystr ph)]

theorem customer_roundtrip (bb : Bool) (i : Int) (na ph : PyStr)
    (hna1 : ∀ c ∈ na, validScalar c = true) (hna2 : ¬ 0 ∈ na) (hna3 : pyStrip na = na)
    (hna4 : ((na.map utf8EncodeChar).flatten).length ≤ 50)
    (hph1 : ∀ c ∈ ph, validScalar c = true) (hph2 : ¬ 0 ∈ ph) (hph3 : pyStrip ph = ph)
    (hph4 : ((ph.map utf8EncodeChar).flatten).length ≤ 15)
    (hi1 : -2^31 ≤ i) (hi2 : i < 2^31) :
    ∃ bytes, customerPack (customerVal bb i na ph) = .ok bytes ∧ bytes.length = 70 ∧
      customerUnpack bytes = .ok (customerVal bb i na ph) := by
  obtain ⟨ib, hib, hiblen, hibval⟩ := unpackI32_packI32 i hi1 hi2
  have hena : pyEncodeUtf8 na = .ok ((na.map utf8EncodeChar).flatten) := by
    rw [pyEncodeUtf8, if_pos (List.all_eq_true.mpr (fun c hc => hna1 c hc))]
  have heph : pyEncodeUtf8 ph = .ok ((ph.map utf8EncodeChar).flatten) := by
    rw [pyEncodeUtf8, if_pos (List.all_eq_true.mpr (fun c hc => hph1 c hc))]
  have hg1 : dgetStr (customerVal bb i na ph) "Name" = .ok na := rfl
  have hg2 : dgetStr (customerVal bb i na ph) "Phone" = .ok ph := rfl
  have hg3 : dgetInt (customerVal bb i na ph) "ID" = .ok i := rfl
  have hg5 : dgetActiveD (customerVal bb i na ph) = bb := rfl
  set ena := (na.map utf8EncodeChar).flatten with hena_def
  set eph := (ph.map utf8EncodeChar).flatten with heph_def
  have hpack : customerPack (customerVal bb i na ph) =
      .ok (packBool bb ++ ib ++ packS 50 (ljust ena 50) ++ packS 15 (ljust eph 15)) := by
    rw [customerPack]
    simp only [hg1, hena, hg2, heph, hg3, hg5, hib, bind, Except.bind]
  refine ⟨_, hpack, ?_, ?_⟩
  · simp [packBool, length_packS, hiblen]
  · have l1 : (packBool bb).length = 1 := rfl
    have l3 : (packS 50 (ljust ena 50)).length = 50 := length_packS _ _
    have l4 : (packS 15 (ljust eph 15)).length = 15 := length_packS _ _
    have hA3 : packS 50 (ljust ena 50) = ena ++ List.replicate (50 - ena.length) 0 := by
      rw [packS_eq_self 50 _ (by rw [length_ljust]; omega)]
      rfl
    have hA4 : packS 15 (ljust eph 15) = eph ++ List.replicate (15 - eph.length) 0 := by
      rw [packS_eq_self 15 _ (by rw [length_ljust]; omega)]
      rfl
    set B := packBool bb ++ ib ++ packS 50 (ljust ena 50) ++ packS 15 (ljust eph 15) with hB
    have hBlen : B.length = 70 := by
      rw [hB]
      simp [packBool, length_packS, hiblen]
    have s1 : B.take 1 = packBool bb := by
      have := slice_of_append [] (packBool bb)
        (ib ++ (packS 50 (ljust ena 50) ++ packS 15 (ljust eph 15))) 0 1 rfl l1
      simpa [hB, List.append_assoc] using this
    have s2 : (B.drop 1).take 4 = ib := by
      have := slice_of_append (packBool bb) ib
        (packS 50 (ljust ena 50) ++ packS 15 (ljust eph 15)) 1 4 l1 hiblen
      simpa [hB, List.append_assoc] using this
    have s3 : (B.drop 5).take 50 = packS 50 (ljust ena 50) := by
      have := slice_of_append (packBool bb ++ ib) (packS 50 (ljust ena 50))
        (packS 15 (ljust eph 15)) 5 50 (by simp [l1, hiblen]) l3
      simpa [hB, List.append_assoc] using this
    have s4 : (B.drop 55).take 15 = packS 15 (ljust eph 15) := by
      have := slice_of_append (packBool bb ++ ib ++ packS 50 (ljust ena 50))
        (packS 15 (ljust eph 15)) [] 55 15 (by simp [l1, hiblen, l3]) l4
      simpa [hB, List.append_assoc] using this
    rw [customerUnpack, if_pos hBlen, s1, s2, s3, s4]
    have vb : unpackBool (packBool bb) = bb := by cases bb <;> rfl
    have vna : pyDecodeField (packS 50 (ljust ena 50)) = na := by
      rw [hA3]
      exact pyDecodeField_roundtrip na _ hna1 hna2 hna3
    have vph : pyDecodeField (packS 15 (ljust eph 15)) = ph := by
      rw [hA4]
      exact pyDecodeField_roundtrip ph _ hph1 hph2 hph3
    rw [vb, hibval, vna, vph]
    rfl

def rentalVal (bb : Bool) (i ci cari sd ed : Int) (tp : Nat) : PyDict :=
  [("IsActive", .pybool bb), ("ID", .pyint i), ("CustomerID", .pyint ci),
   ("CarID", .pyint cari), ("StartDate", .pyint sd), ("EndDate", .pyint ed),
   ("TotalPrice", .pyfloat tp)]

theorem rental_roundtrip (bb : Bool) (i ci cari sd ed : Int) (tp : Nat)
    (hi : -2^31 ≤ i ∧ i < 2^31) (hci : -2^31 ≤ ci ∧ ci < 2^31)
    (hcari : -2^31 ≤ cari ∧ cari < 2^31) (hsd : -2^31 ≤ sd ∧ sd < 2^31)
    (hed : -2^31 ≤ ed ∧ ed < 2^31) (htp : tp < 2^64) :
    ∃ bytes, rentalPack (rentalVal bb i ci cari sd ed tp) = .ok bytes ∧ bytes.length = 29 ∧
      rentalUnpack bytes = .ok (rentalVal bb i ci cari sd ed tp) := by
  obtain ⟨ib, hib, hiblen, hibval⟩ := unpackI32_packI32 i hi.1 hi.2
  obtain ⟨cib, hcib, hciblen, hcibval⟩ := unpackI32_packI32 ci hci.1 hci.2
  obtain ⟨carib, hcarib, hcariblen, hcaribval⟩ := unpackI32_packI32 cari hcari.1 hcari.2
  obtain ⟨sdb, hsdb, hsdblen, hsdbval⟩ := unpackI32_packI32 sd hsd.1 hsd.2
  obtain ⟨edb, hedb, hedblen, hedbval⟩ := unpackI32_packI32 ed hed.1 hed.2
  have hg1 : dgetInt (rentalVal bb i ci cari sd ed tp) "ID" = .ok i := rfl
  have hg2 : dgetInt (rentalVal bb i ci cari sd ed tp) "CustomerID" = .ok ci := rfl
  have hg3 : dgetInt (rentalVal bb i ci cari sd ed tp) "CarID" = .ok cari := rfl
  have hg4 : dgetInt (rentalVal bb i ci cari sd ed tp) "StartDate" = .ok sd := rfl
  have hg5 : dget (rentalVal bb i ci cari sd ed tp) "EndDate" = some (.pyint ed) := rfl
  have hg6 : dgetFloat (rentalVal bb i ci cari sd ed tp) "TotalPrice" = .ok tp := rfl
  have hg7 : dgetActiveD (rentalVal bb i ci cari sd ed tp) = bb := rfl
  have hpack : rentalPack (rentalVal bb i ci cari sd ed tp) =
      .ok (packBool bb ++ ib ++ cib ++ carib ++ sdb ++ edb ++ packF64 tp) := by
    rw [rentalPack]
    simp only [hg1, hg2, hg3, hg4, hg5, hg6, hg7, hib, hcib, hcarib, hsdb, hedb,
      bind, Except.bind]
  refine ⟨_, hpack, ?_, ?_⟩
  · simp [packBool, packF64, length_toLE, hiblen, hciblen, hcariblen, hsdblen, hedblen]
  · have l1 : (packBool bb).length = 1 := rfl
    have l7 : (packF64 tp).length = 8 := length_toLE _ _
    set B := packBool bb ++ ib ++ cib ++ carib ++ sdb ++ edb ++ packF64 tp with hB
    have hBlen : B.length = 29 := by
      rw [hB]
      simp [packBool, packF64, length_toLE, hiblen, hciblen, hcariblen, hsdblen, hedblen]
    have s1 : B.take 1 = packBool bb := by
      have := slice_of_append [] (packBool bb)
        (ib ++ (cib ++ (carib ++ (sdb ++ (edb ++ packF64 tp))))) 0 1 rfl l1
      simpa [hB, List.append_assoc] using this
    have s2 : (B.drop 1).take 4 = ib := by
      have := slice_of_append (packBool bb) ib
        (cib ++ (carib ++ (sdb ++ (edb ++ packF64 tp)))) 1 4 l1 hiblen
      simpa [hB, List.append_assoc] using this
    have s3 : (B.drop 5).take 4 = cib := by
      have := slice_of_append (packBool bb ++ ib) cib
        (carib ++ (sdb ++ (edb ++ packF64 tp))) 5 4 (by simp [l1, hiblen]) hciblen
      simpa [hB, List.append_assoc] using this
    have s4 : (B.drop 9).take 4 = carib := by
      have := slice_of_append (packBool bb ++ ib ++ cib) carib
        (sdb ++ (edb ++ packF64 tp)) 9 4 (by simp [l1, hiblen, hciblen]) hcariblen
      simpa [hB, List.append_assoc] using this
    have s5 : (B.drop 13).take 4 = sdb := by
      have := slice_of_append (packBool bb ++ ib ++ cib ++ carib) sdb
        (edb ++ packF64 tp) 13 4 (by simp [l1, hiblen, hciblen, hcariblen]) hsdblen
      simpa [hB, List.append_assoc] using this
    have s6 : (B.drop 17).take 4 = edb := by
      have := slice_of_append (packBool bb ++ ib ++ cib ++ carib ++ sdb) edb
        (packF64 tp) 17 4 (by simp [l1, hiblen, hciblen, hcariblen, hsdblen]) hedblen
      simpa [hB, List.append_assoc] using this
    have s7 : (B.drop 21).take 8 = packF64 tp := by
      have := slice_of_append (packBool bb ++ ib ++ cib ++ carib ++ sdb ++ edb)
        (packF64 tp) [] 21 8
        (by simp [l1, hiblen, hciblen, hcariblen, hsdblen, hedblen]) l7
      simpa [hB, List.append_assoc] using this
    rw [rentalUnpack, if_pos hBlen, s1, s2, s3, s4, s5, s6, s7]
    have vb : unpackBool (packBool bb) = bb := by cases bb <;> rfl
    have vtp : unpackF64 (packF64 tp) = tp := by
      rw [packF64, unpackF64]
      exact fromLE_toLE 8 tp (by norm_num at htp ⊢; omega)
    rw [vb, hibval, hcibval, hcaribval, hsdbval, hedbval, vtp]
    rfl


/-- C4.  For every entity value whose text fields are encodable, fit their
declared byte widths, contain no zero byte and carry no surrounding
whitespace, and whose numeric fields are within their fixed-width ranges
(signed 32-bit ints; any 64-bit float pattern), decoding the encoding gives
back exactly the same value, for each of the three codecs. -/
theorem c4_codec_round_trip :
    (∀ (bb : Bool) (i : Int) (mo pl : PyStr) (rb : Nat),
      (∀ c ∈ mo, validScalar c = true) → ¬ 0 ∈ mo → pyStrip mo = mo →
      ((mo.map utf8EncodeChar).flatten).length ≤ 30 →
      (∀ c ∈ pl, validScalar c = true) → ¬ 0 ∈ pl → pyStrip pl = pl →
      ((pl.map utf8EncodeChar).flatten).length ≤ 10 →
      -2^31 ≤ i → i < 2^31 → rb < 2^64 →
      ∃ bytes, carPack (carVal bb i mo pl rb) = .ok bytes ∧ bytes.length = 53 ∧
        carUnpack bytes = .ok (carVal bb i mo pl rb))
    ∧ (∀ (bb : Bool) (i : Int) (na ph : PyStr),
      (∀ c ∈ na, validScalar c = true) → ¬ 0 ∈ na → pyStrip na = na →
      ((na.map utf8EncodeChar).flatten).length ≤ 50 →
      (∀ c ∈ ph, validScalar c = true) → ¬ 0 ∈ ph → pyStrip ph = ph →
      ((ph.map utf8EncodeChar).flatten).length ≤ 15 →
      -2^31 ≤ i → i < 2^31 →
      ∃ bytes, customerPack (customerVal bb i na ph) = .ok bytes ∧ bytes.length = 70 ∧
        customerUnpack bytes = .ok (customerVal bb i na ph))
    ∧ (∀ (bb : Bool) (i ci cari sd ed : Int) (tp : Nat),
      -2^31 ≤ i ∧ i < 2^31 → -2^31 ≤ ci ∧ ci < 2^31 → -2^31 ≤ cari ∧ cari < 2^31 →
      -2^31 ≤ sd ∧ sd < 2^31 → -2^31 ≤ ed ∧ ed < 2^31 → tp < 2^64 →
      ∃ bytes, rentalPack (rentalVal bb i ci cari sd ed tp) = .ok bytes ∧
        bytes.length = 29 ∧ rentalUnpack bytes = .ok (rentalVal bb i ci cari sd ed tp)) :=
  ⟨fun bb i mo pl rb h1 h2 h3 h4 h5 h6 h7 h8 h9 h10 h11 =>
      car_roundtrip bb i mo pl rb h1 h2 h3 h4 h5 h6 h7 h8 h9 h10 h11,
   fun bb i na ph h1 h2 h3 h4 h5 h6 h7 h8 h9 h10 =>
      customer_roundtrip bb i na ph h1 h2 h3 h4 h5 h6 h7 h8 h9 h10,
   fun bb i ci cari sd ed tp h1 h2 h3 h4 h5 h6 =>
      rental_roundtrip bb i ci cari sd ed tp h1 h2 h3 h4 h5 h6⟩

theorem c4_codec_round_trip_witness :
    (∃ bytes, carPack (carVal true 1 [84, 111, 121, 111, 116, 97, 32, 67, 97, 109, 114, 121]
        [65, 66, 67, 49, 50, 51] 12345) = .ok bytes ∧ bytes.length = 53 ∧
      carUnpack bytes = .ok (carVal true 1 [84, 111, 121, 111, 116, 97, 32, 67, 97, 109, 114, 121]
        [65, 66, 67, 49, 50, 51] 12345))
    ∧ (∃ bytes, customerPack (customerVal true 1 [83, 111, 109, 99, 104, 97, 105]
        [48, 56, 49, 49]) = .ok bytes ∧ bytes.length = 70 ∧
      customerUnpack bytes = .ok (customerVal true 1 [83, 111, 109, 99, 104, 97, 105]
        [48, 56, 49, 49]))
    ∧ (∃ bytes, rentalPack (rentalVal true 1 1 1 1012025 3012025 100) = .ok bytes ∧
        bytes.length = 29 ∧
      rentalUnpack bytes = .ok (rentalVal true 1 1 1 1012025 3012025 100)) :=
  ⟨c4_codec_round_trip.1 true 1 _ _ 12345 (by decide) (by decide) (by decide) (by decide)
      (by decide) (by decide) (by decide) (by decide) (by decide) (by decide) (by decide),
   c4_codec_round_trip.2.1 true 1 _ _ (by decide) (by decide) (by decide) (by decide)
      (by decide) (by decide) (by decide) (by decide) (by decide) (by decide),
   c4_codec_round_trip.2.2 true 1 1 1 1012025 3012025 100 (by decide) (by decide)
      (by decide) (by decide) (by decide) (by decide)⟩


/-! ## Claim C5: text-field decoding (corrected) -/
theorem utf8Next_cont_none (b : Nat) (rest : List Nat) (h1 : 0x80 ≤ b) (h2 : b < 0xC2) :
    utf8Next (b :: rest) = none := by
  cases rest with
  | nil =>
    simp only [utf8Next]
    rw [if_neg (by omega)]
  | cons b1 t1 =>
    cases t1 with
    | nil =>
      simp only [utf8Next]
      rw [if_neg (by omega), if_neg (by omega)]
    | cons b2 t2 =>
      cases t2 with
      | nil =>
        simp only [utf8Next]
        rw [if_neg (by omega), if_neg (by omega), if_neg (by omega)]
      | cons b3 t3 =>
        simp only [utf8Next]
        rw [if_neg (by omega), if_neg (by omega), if_neg (by omega), if_neg (by omega)]

theorem utf8DecodeIgnoreAux_cont :
    ∀ fuel bs, (∀ b ∈ bs, 0x80 ≤ b ∧ b < 0xC0) → utf8DecodeIgnoreAux fuel bs = [] := by
  intro fuel
  induction fuel with
  | zero => intro bs h; cases bs <;> rfl
  | succ fuel ih =>
    intro bs h
    cases bs with
    | nil => rfl
    | cons b rest =>
      rw [utf8DecodeIgnoreAux]
      have hb := h b (List.mem_cons_self _ _)
      rw [utf8Next_cont_none b rest hb.1 (by omega)]
      exact ih rest (fun x hx => h x (List.mem_cons_of_mem _ hx))


/-- A 53-byte car slot whose `Model` field starts with `b'A\xff'`: the bytes
before the first zero are not decodable as a whole, yet `errors='ignore'`
keeps the decodable part. -/
def c5Block : List Nat := [1, 1, 0, 0, 0, 65, 255] ++ List.replicate 46 0

/-- C5 counterexample.  The claim "whenever that byte sequence is not
decodable in the field's encoding, the decoded field is the empty string" is
false: in `c5Block` the `Model` bytes before the first zero are `[65, 255]`,
which strict UTF-8 cannot decode, yet the decoded field is `"A"`, not the
empty string (because `errors='ignore'` drops only the undecodable byte). -/
theorem c5_text_decode_counterexample :
    utf8Decodable (((c5Block.drop 5).take 30).takeWhile (· != 0)) = false
    ∧ carUnpack c5Block =
        .ok [("IsActive", .pybool true), ("ID", .pyint 1), ("Model", .pystr [65]),
             ("LicensePlate", .pystr []), ("DailyRate", .pyfloat 0)]
    ∧ ([65] : PyStr) ≠ [] :=
  ⟨by decide, by decide, by decide⟩

/-- C5 amended.  Decoding a text field takes the bytes before the first zero
byte, decodes them with undecodable bytes silently dropped
(`errors='ignore'`), and trims surrounding whitespace; the decoded field is
the empty string only when nothing in the sequence is decodable — for
example when every byte is a UTF-8 continuation byte. -/
theorem c5_text_decode_amended :
    (∀ blk : List Nat, blk.length = 53 →
      ∃ d, carUnpack blk = .ok d ∧
        dget d "Model" = some (.pystr (pyStrip (utf8DecodeIgnore
          (((blk.drop 5).take 30).takeWhile (· != 0))))))
    ∧ (∀ bs : List Nat, (∀ b ∈ bs, 0x80 ≤ b ∧ b < 0xC0) →
        pyStrip (utf8DecodeIgnore bs) = []) := by
  constructor
  · intro blk hlen
    rw [carUnpack, if_pos hlen]
    exact ⟨_, rfl, rfl⟩
  · intro bs h
    rw [utf8DecodeIgnore, utf8DecodeIgnoreAux_cont bs.length bs h]
    rfl

theorem c5_text_decode_amended_witness :
    (∃ d, carUnpack c5Block = .ok d ∧
      dget d "Model" = some (.pystr (pyStrip (utf8DecodeIgnore
        (((c5Block.drop 5).take 30).takeWhile (· != 0))))))
    ∧ pyStrip (utf8DecodeIgnore [0x80, 0xBF]) = [] :=
  ⟨c5_text_decode_amended.1 c5Block (by decide),
   c5_text_decode_amended.2 [0x80, 0xBF] (by decide)⟩


/-! ## The rental-creation glue (`run_rental_menu`, choice `A`) -/

/-- Little-endian decimal digits of `n`, fuel-indexed (`fuel = n` suffices). -/
def natDigitsAux : Nat → Nat → List Nat
  | 0, _ => []
  | fuel+1, n => if n = 0 then [] else n % 10 :: natDigitsAux fuel (n / 10)

/-- The decimal digit string `str(n)`, most significant digit first. -/
def pyStrDigits (n : Nat) : List Nat :=
  if n = 0 then [0] else (natDigitsAux n n).reverse

/-- `str(n).zfill(8)` as a digit list. -/
def digits8 (n : Nat) : List Nat :=
  List.replicate (8 - (pyStrDigits n).length) 0 ++ pyStrDigits n

/-- The `%d` field of `strptime`: two digits when they match
`3[01]`, `[12][0-9]` or `0[1-9]`, else one digit `[1-9]`. -/
def takeDay : List Nat → Option (Nat × List Nat)
  | a :: b :: rest =>
    if (a = 3 ∧ b ≤ 1) ∨ (1 ≤ a ∧ a ≤ 2) ∨ (a = 0 ∧ 1 ≤ b) then some (10 * a + b, rest)
    else if 1 ≤ a ∧ a ≤ 9 then some (a, b :: rest)
    else none
  | [a] => if 1 ≤ a ∧ a ≤ 9 then some (a, []) else none
  | [] => none

/-- The `%m` field of `strptime`: `1[0-2]`, `0[1-9]` or a single `[1-9]`. -/
def takeMonth : List Nat → Option (Nat × List Nat)
  | a :: b :: rest =>
    if (a = 1 ∧ b ≤ 2) ∨ (a = 0 ∧ 1 ≤ b) then some (10 * a + b, rest)
    else if 1 ≤ a ∧ a ≤ 9 then some (a, b :: rest)
    else none
  | [a] => if 1 ≤ a ∧ a ≤ 9 then some (a, []) else none
  | [] => none

/-- The `%Y` field of `strptime`: exactly four digits. -/
def takeYear : List Nat → Option (Nat × List Nat)
  | a :: b :: c :: d :: rest => some (1000 * a + 100 * b + 10 * c + d, rest)
  | _ => none

/-- Gregorian leap year, as the `datetime` module computes it. -/
def isLeap (y : Nat) : Bool := y % 4 = 0 && (y % 100 ≠ 0 || y % 400 = 0)

/-- Days in a month of the proleptic Gregorian calendar. -/
def daysInMonth (y m : Nat) : Nat :=
  if m = 2 then (if isLeap y then 29 else 28)
  else if m = 4 ∨ m = 6 ∨ m = 9 ∨ m = 11 then 30
  else 31

/-- `datetime.datetime.strptime(s, '%d%m%Y')` on a digit list: match the
three fields, reject leftover characters, and let the `datetime` constructor
validate the day against the month and the year against `MINYEAR = 1`.
Returns `(day, month, year)`. -/
def parseDMY (ds : List Nat) : Option (Nat × Nat × Nat) := do
  let (d, r1) ← takeDay ds
  let (m, r2) ← takeMonth r1
  let (y, r3) ← takeYear r2
  if r3 = [] ∧ 1 ≤ y ∧ d ≤ daysInMonth y m then some (d, m, y) else none

/-- Days before January 1 of year `y` in the proleptic Gregorian calendar
(`datetime`'s `_days_before_year`). -/
def daysBeforeYear (y : Nat) : Nat :=
  365 * (y - 1) + (y - 1) / 4 - (y - 1) / 100 + (y - 1) / 400

/-- Days in year `y` before the first of month `m`. -/
def daysBeforeMonth (y m : Nat) : Nat :=
  (List.range (m - 1)).foldl (fun acc i => acc + daysInMonth y (i + 1)) 0

/-- `datetime.date.toordinal()` of `(day, month, year)`; the difference of
two ordinals is exactly `(end - start).days` for midnight datetimes. -/
def dateOrdinal : Nat × Nat × Nat → Nat
  | (d, m, y) => daysBeforeYear y + daysBeforeMonth y m + d

/-- The total-price computation of rental creation (source lines 537–553):
re-parse both `DDMMYYYY` integers via `zfill(8)` and `strptime`, count the
days inclusively of both endpoints (`(end - start).days + 1`), and multiply
the car's daily rate; if either date is malformed the surrounding `try`
falls back to one day at the daily rate instead of failing.  The daily-rate
arithmetic is carried out exactly over `ℚ` here; the product the program
stores is this value rounded to the nearest IEEE double (exact at the rates
and day counts exercised below). -/
def computeRentalPrice (rate : ℚ) (sd ed : Nat) : ℚ × Int :=
  match parseDMY (digits8 sd), parseDMY (digits8 ed) with
  | some s, some e =>
    let days : Int := (dateOrdinal e : Int) - (dateOrdinal s : Int) + 1
    (rate * (days : ℚ), days)
  | _, _ => (rate, 1)

theorem c6_part1 (rate : ℚ) (sd ed : Nat) (ps pe : Nat × Nat × Nat)
    (h1 : parseDMY (digits8 sd) = some ps) (h2 : parseDMY (digits8 ed) = some pe) :
    computeRentalPrice rate sd ed =
      (rate * (((dateOrdinal pe : Int) - (dateOrdinal ps : Int) + 1 : Int) : ℚ),
       (dateOrdinal pe : Int) - (dateOrdinal ps : Int) + 1) := by
  rw [computeRentalPrice]
  simp only [h1, h2]

theorem c6_part2 (rate : ℚ) (sd ed : Nat)
    (h : parseDMY (digits8 sd) = none ∨ parseDMY (digits8 ed) = none) :
    computeRentalPrice rate sd ed = (rate, 1) := by
  rw [computeRentalPrice]
  rcases h with h | h
  · rw [h]
  · rw [h]
    cases parseDMY (digits8 sd) <;> rfl

theorem c6_part3 : computeRentalPrice 1200 1012025 3012025 = (3600, 3) := by
  have h1 : parseDMY (digits8 1012025) = some (1, 1, 2025) := by decide
  have h2 : parseDMY (digits8 3012025) = some (3, 1, 2025) := by decide
  rw [c6_part1 1200 1012025 3012025 (1, 1, 2025) (3, 1, 2025) h1 h2]
  have hd : (dateOrdinal (3, 1, 2025) : Int) - (dateOrdinal (1, 1, 2025) : Int) + 1 = 3 := by
    have he : dateOrdinal (3, 1, 2025) = dateOrdinal (1, 1, 2025) + 2 := by decide
    rw [he]
    omega
  rw [hd]
  norm_num

/-- C6.  On rental creation the computed (and then stored) total price is the
daily rate times the inclusive day count `(end - start).days + 1`; malformed
dates fall back to exactly one day of the daily rate instead of failing; and
on the concrete instance start `01012025`, end `03012025`, rate `1200.00`
the day count is `3` and the price `3600.00`. -/
theorem c6_rental_price :
    (∀ (rate : ℚ) (sd ed : Nat) (ps pe : Nat × Nat × Nat),
      parseDMY (digits8 sd) = some ps → parseDMY (digits8 ed) = some pe →
      computeRentalPrice rate sd ed =
        (rate * (((dateOrdinal pe : Int) - (dateOrdinal ps : Int) + 1 : Int) : ℚ),
         (dateOrdinal pe : Int) - (dateOrdinal ps : Int) + 1))
    ∧ (∀ (rate : ℚ) (sd ed : Nat),
      parseDMY (digits8 sd) = none ∨ parseDMY (digits8 ed) = none →
      computeRentalPrice rate sd ed = (rate, 1))
    ∧ computeRentalPrice 1200 1012025 3012025 = (3600, 3) :=
  ⟨c6_part1, c6_part2, c6_part3⟩

theorem c6_rental_price_witness :
    computeRentalPrice 1200 1012025 3012025 =
      (1200 * (((dateOrdinal (3, 1, 2025) : Int) - (dateOrdinal (1, 1, 2025) : Int) + 1 :
        Int) : ℚ),
       (dateOrdinal (3, 1, 2025) : Int) - (dateOrdinal (1, 1, 2025) : Int) + 1)
    ∧ computeRentalPrice 1200 0 3012025 = (1200, 1) :=
  ⟨c6_rental_price.1 1200 1012025 3012025 (1, 1, 2025) (3, 1, 2025) (by decide) (by decide),
   c6_rental_price.2.1 1200 0 3012025 (Or.inl (by decide))⟩

/-! ## Claim C7: rental creation validates its references -/

/-- The three entity files of the running system. -/
structure SysState where
  cars : List Nat
  custs : List Nat
  rentals : List Nat
deriving DecidableEq

/-- Rental creation (`run_rental_menu`, choice `A`): check that the customer
id and then the car id resolve to currently-active records — on failure the
menu prints an error and abandons the operation with no writes, modelled as
the `referenceError` outcome with the state unchanged — then compute the
price from the found car's rate and the parsed dates and add the rental
record, then mark the car rented via `update_record` (a no-op on the car's
stored fields, since the car codec has no `IsRented` field).  `priceMul` is
the IEEE double multiplication `daily_rate * days` on bit patterns, left as
a parameter; no claim proved here depends on it. -/
def rentalCreate (priceMul : Nat → Int → Nat) (st : SysState) (rid cid carid : Int)
    (sd ed : Nat) : SysState × Except PyErr Nat :=
  if (get_record_by_id customerManager st.custs cid).isNone then
    (st, .error .referenceError)
  else
    match get_record_by_id carManager st.cars carid with
    | none => (st, .error .referenceError)
    | some (car, _) =>
      let rateBits := match dget car "DailyRate" with
        | some (.pyfloat b) => b
        | _ => 0
      let priceBits := match parseDMY (digits8 sd), parseDMY (digits8 ed) with
        | some s, some e => priceMul rateBits ((dateOrdinal e : Int) - (dateOrdinal s : Int) + 1)
        | _, _ => rateBits
      match add_record rentalManager st.rentals
        [("ID", .pyint rid), ("CustomerID", .pyint cid), ("CarID", .pyint carid),
         ("StartDate", .pyint (sd : Int)), ("EndDate", .pyint (ed : Int)),
         ("TotalPrice", .pyfloat priceBits)] with
      | .error e => (st, .error e)
      | .ok (rf, off) =>
        match update_record carManager st.cars carid [("IsRented", .pybool true)] with
        | .error e => ({ st with rentals := rf }, .error e)
        | .ok (_, cf) => ({ st with rentals := rf, cars := cf }, .ok off)

/-- C7.  When either the referenced customer id or the referenced car id does
not resolve to a currently-active record, rental creation fails with the
reference error and performs no writes: every file of the state is returned
byte-for-byte unchanged. -/
theorem c7_rental_reference_check (priceMul : Nat → Int → Nat) (st : SysState)
    (rid cid carid : Int) (sd ed : Nat)
    (h : get_record_by_id customerManager st.custs cid = none ∨
         get_record_by_id carManager st.cars carid = none) :
    rentalCreate priceMul st rid cid carid sd ed = (st, .error .referenceError) := by
  rcases h with h | h
  · rw [rentalCreate, if_pos (by rw [h]; rfl)]
  · rw [rentalCreate]
    by_cases hc : (get_record_by_id customerManager st.custs cid).isNone
    · rw [if_pos hc]
    · rw [if_neg hc, h]

theorem c7_rental_reference_check_witness :
    rentalCreate (fun b _ => b) ⟨[], [], []⟩ 1 1 1 1012025 3012025 =
      (⟨[], [], []⟩, .error .referenceError) :=
  c7_rental_reference_check (fun b _ => b) ⟨[], [], []⟩ 1 1 1 1012025 3012025
    (Or.inl (by decide))

/-! ## Claim C8: a missing required field (corrected) -/

/-- C8 counterexample.  The claim says a missing required field fails with a
`ValidationError` and "not a generic key-lookup crash"; but the code has no
`ValidationError` at all — adding a car whose dictionary lacks `Model`
raises the plain `KeyError('Model')` of the dictionary access inside
`_pack_record`. -/
theorem c8_missing_field_counterexample :
    add_record carManager [] [("ID", .pyint 1), ("LicensePlate", .pystr [65]),
      ("DailyRate", .pyfloat 0)] = .error (.keyError "Model")
    ∧ PyErr.keyError "Model" ≠ .validationError := ⟨by decide, by decide⟩

/-- C8 amended.  An add whose field dictionary is missing a required field
fails with the generic `KeyError` naming the first field `_pack_record`
reads, and the failure is raised while encoding, before any write occurs, so
the file is untouched (the error return carries no modified file). -/
theorem c8_missing_field_amended :
    (∀ (file : List Nat) (d : PyDict), dget d "Model" = none →
      add_record carManager file d = .error (.keyError "Model"))
    ∧ (∀ (file : List Nat) (d : PyDict), dget d "Name" = none →
      add_record customerManager file d = .error (.keyError "Name"))
    ∧ (∀ (file : List Nat) (d : PyDict), dget d "ID" = none →
      add_record rentalManager file d = .error (.keyError "ID")) := by
  refine ⟨?_, ?_, ?_⟩
  · intro file d h
    have h2 : dget (dset d "IsActive" (.pybool true)) "Model" = none := by
      rw [dget_dset_ne _ _ _ _ (by decide)]
      exact h
    have hp : carManager.pack (dset d "IsActive" (.pybool true)) =
        .error (.keyError "Model") := by
      show carPack _ = _
      rw [carPack]
      simp only [dgetStr, dgetE, h2, bind, Except.bind]
    rw [add_record, hp]
    rfl
  · intro file d h
    have h2 : dget (dset d "IsActive" (.pybool true)) "Name" = none := by
      rw [dget_dset_ne _ _ _ _ (by decide)]
      exact h
    have hp : customerManager.pack (dset d "IsActive" (.pybool true)) =
        .error (.keyError "Name") := by
      show customerPack _ = _
      rw [customerPack]
      simp only [dgetStr, dgetE, h2, bind, Except.bind]
    rw [add_record, hp]
    rfl
  · intro file d h
    have h2 : dget (dset d "IsActive" (.pybool true)) "ID" = none := by
      rw [dget_dset_ne _ _ _ _ (by decide)]
      exact h
    have hp : rentalManager.pack (dset d "IsActive" (.pybool true)) =
        .error (.keyError "ID") := by
      show rentalPack _ = _
      rw [rentalPack]
      simp only [dgetInt, dgetE, h2, bind, Except.bind]
    rw [add_record, hp]
    rfl

theorem c8_missing_field_amended_witness :
    add_record carManager [] [("ID", .pyint 1)] = .error (.keyError "Model")
    ∧ add_record customerManager [] [] = .error (.keyError "Name")
    ∧ add_record rentalManager [] [("CustomerID", .pyint 1)] = .error (.keyError "ID") :=
  ⟨c8_missing_field_amended.1 [] [("ID", .pyint 1)] (by decide),
   c8_missing_field_amended.2.1 [] [] (by decide),
   c8_missing_field_amended.2.2 [] [("CustomerID", .pyint 1)] (by decide)⟩


end CarStore
